/-
  Verification of the delegate-apportionment core of the subcalc repository
  (Snapshot.ts: Snapshot.redistributeDelegates and Snapshot.revise).

  The embedding models TypeScript numbers by Nat (counts, seats, ids, seeds)
  and by ℚ (the real-valued divisions of the proportional step: the source
  uses IEEE doubles, which are exact on all quantities occurring here up to
  the division; we model the division exactly by rationals).

  TSMap in the source preserves insertion order; `subcaucuses.values()` is
  modelled by a `List Subcaucus` in insertion order.  TSMap keys are unique,
  which the list model expresses as a `Nodup` hypothesis on the group ids
  where a theorem needs it.

  The source of Subcaucus.ts and SubCalcPRNG.ts is not part of the corpus
  (only their callers are); the small pieces of behaviour taken from them
  are modelled from the spec and marked `Modelled from the spec:` below.
-/
import Mathlib

namespace SubCalc

/-- A subcaucus (group) record: raw membership `count` plus the per-group
delegate state recomputed by every apportionment pass.  Mirrors the fields of
`Subcaucus` read and written by `Snapshot.redistributeDelegates`. -/
structure Subcaucus where
  id : Nat
  name : String
  count : Nat
  baseDelegates : Nat
  remainder : ℚ
  remainderDelegates : Nat
  reportTosses : Bool
  tossLog : List (Nat × Bool)
deriving Repr, DecidableEq

instance : Inhabited Subcaucus :=
  ⟨⟨0, "", 0, 0, 0, 0, false, []⟩⟩

/-- Modelled from the spec: `Subcaucus.clearDelegateInfo` (Subcaucus.ts is
missing from the corpus).  Spec step 1 (Reset): `baseDelegates = 0`,
`remainder = 0`, `remainderDelegates = 0`, `reportTosses = false`,
`tossLog = []`. -/
def Subcaucus.clearDelegateInfo (c : Subcaucus) : Subcaucus :=
  { c with baseDelegates := 0, remainder := 0, remainderDelegates := 0,
           reportTosses := false, tossLog := [] }

/-- Modelled from the spec: `Subcaucus.setViability` (Subcaucus.ts is missing
from the corpus).  Spec step 7 (Proportional step):
`baseDelegates = floor(count / delegateDivisor)`,
`remainder = (count / delegateDivisor) - baseDelegates`. -/
def Subcaucus.setViability (c : Subcaucus) (delegateDivisor : ℚ) : Subcaucus :=
  let score : ℚ := (c.count : ℚ) / delegateDivisor
  { c with baseDelegates := (Int.floor score).toNat,
           remainder := score - Int.floor score }

/-- Modelled from the spec: `Subcaucus.addRemainderDelegate` (Subcaucus.ts is
missing from the corpus).  Spec step 11: give the group one remainder seat
(`remainderDelegates = 1`). -/
def Subcaucus.addRemainderDelegate (c : Subcaucus) : Subcaucus :=
  { c with remainderDelegates := 1 }

/-- Modelled from the spec: `SubCalcPRNG` (SubCalcPRNG.ts is missing from the
corpus).  Spec §4.1 only requires a seeded deterministic generator with
`next_below(bound) ∈ [0, bound)`; a linear-congruential generator is the
spec's own example, so we model one concretely. -/
structure SubCalcPRNG where
  state : Nat
deriving Repr, DecidableEq

/-- Modelled from the spec: construction of the generator from a seed
(`new SubCalcPRNG(this.seed)` in Snapshot.ts line 330). -/
def SubCalcPRNG.init (seed : Nat) : SubCalcPRNG := ⟨seed⟩

/-- Modelled from the spec: `randomUpTo(bound)` returns a value in
`[0, bound)` and advances the generator state deterministically. -/
def SubCalcPRNG.randomUpTo (g : SubCalcPRNG) (bound : Nat) : Nat × SubCalcPRNG :=
  let s := (g.state * 1103515245 + 12345) % 2147483648
  (s % bound, ⟨s⟩)

/-- The in-place Fisher-Yates shuffle of Snapshot.ts lines 336-347:
`while (m) { const i = scRand.randomUpTo(m--); swap vSubRanks[m] vSubRanks[i] }`.
The first argument is the loop counter `m`. -/
def shuffleAux : Nat → List Nat → SubCalcPRNG → List Nat × SubCalcPRNG
  | 0, xs, g => (xs, g)
  | m + 1, xs, g =>
    let p := g.randomUpTo (m + 1)
    let a := xs.getD m 0
    let b := xs.getD p.1 0
    shuffleAux m ((xs.set m b).set p.1 a) p.2

/-- The seeded pre-ranking of viable subcaucus ids (Snapshot.ts lines 330-347):
seed a fresh generator, then shuffle the id list in place. -/
def shuffledRanks (seed : Nat) (ids : List Nat) : List Nat :=
  (shuffleAux ids.length ids (SubCalcPRNG.init seed)).1

/-- Position of a subcaucus id in the shuffled pre-ranking
(`vSubRanks.indexOf` in the sort comparator, Snapshot.ts line 382). -/
def rankIdx (ranks : List Nat) (c : Subcaucus) : Nat := ranks.indexOf c.id

/-- The order imposed by the sort comparator of Snapshot.ts lines 350-390:
higher remainder first, exact remainder ties broken by the position in the
shuffled pre-ranking (`vSubRanks.indexOf(a.id) < vSubRanks.indexOf(b.id)`). -/
def remOrder (ranks : List Nat) (a b : Subcaucus) : Prop :=
  b.remainder < a.remainder ∨
    (b.remainder = a.remainder ∧ rankIdx ranks a ≤ rankIdx ranks b)

instance (ranks : List Nat) : DecidableRel (remOrder ranks) := fun a b => by
  unfold remOrder; infer_instance

instance (ranks : List Nat) : IsTotal Subcaucus (remOrder ranks) := by
  constructor
  intro a b
  unfold remOrder
  rcases lt_trichotomy a.remainder b.remainder with h | h | h
  · exact Or.inr (Or.inl h)
  · rcases Nat.le_total (rankIdx ranks a) (rankIdx ranks b) with hle | hle
    · exact Or.inl (Or.inr ⟨h.symm, hle⟩)
    · exact Or.inr (Or.inr ⟨h, hle⟩)
  · exact Or.inl (Or.inl h)

instance (ranks : List Nat) : IsTrans Subcaucus (remOrder ranks) := by
  constructor
  intro a b c hab hbc
  unfold remOrder at *
  rcases hab with h1 | ⟨h1, h1i⟩
  · rcases hbc with h2 | ⟨h2, _⟩
    · exact Or.inl (h2.trans h1)
    · exact Or.inl (h2 ▸ h1)
  · rcases hbc with h2 | ⟨h2, h2i⟩
    · exact Or.inl (h1 ▸ h2)
    · exact Or.inr ⟨h2.trans h1, le_trans h1i h2i⟩

/-- Modelled from the spec: the coin-toss audit entries
(`a.coinToss(...)`/`b.coinToss(...)` in the comparator, Snapshot.ts lines
385-386; `Subcaucus.coinToss` itself is missing from the corpus).  The spec
says a `tossLog` entry `(opponentId, wonToss)` accumulates whenever this
group's remainder ties another's during the computation; the exact sequence
of comparator invocations is engine-defined, so the model records each tied
pair once, in pool order. -/
def logTosses (ranks : List Nat) (pool : List Subcaucus) (c : Subcaucus) : Subcaucus :=
  let tied := pool.filter (fun d => d.id ≠ c.id ∧ d.remainder = c.remainder)
  { c with tossLog := tied.map (fun d => (d.id, decide (rankIdx ranks c < rankIdx ranks d))) }

/-- State of the leftover-seat walk of Snapshot.ts lines 395-427: the running
aggregate `totalDelegates`, the tracked `remainder`, the `reportingTo` list
(modelled by ids), the `justAddedRemainderDelegate` flag, and the processed
subcaucuses in ranked order. -/
structure WalkState where
  totalDelegates : Nat
  remainder : ℚ
  reportingTo : List Nat
  justAdded : Bool
  done : List Subcaucus
deriving Repr, DecidableEq

/-- One iteration of the leftover-seat walk (`vSubs.forEach`, Snapshot.ts
lines 398-427). -/
def walkStep (allowed : Nat) (st : WalkState) (c : Subcaucus) : WalkState :=
  if st.totalDelegates < allowed then
    { totalDelegates := st.totalDelegates + 1
      remainder := c.remainder
      reportingTo := (if st.remainder ≠ c.remainder then [] else st.reportingTo) ++ [c.id]
      justAdded := true
      done := st.done ++ [c.addRemainderDelegate] }
  else if st.remainder = c.remainder then
    { st with reportingTo := st.reportingTo ++ [c.id]
              justAdded := false
              done := st.done ++ [c] }
  else
    { st with reportingTo := if st.justAdded then [] else st.reportingTo
              remainder := -1
              justAdded := false
              done := st.done ++ [c] }

/-- Initial state of the walk: `totalDelegates` already holds the sum of base
delegates (Snapshot.ts lines 323-325), `remainder = -1`, empty reporting
list, `justAddedRemainderDelegate = false`. -/
def walkInit (baseTotal : Nat) : WalkState :=
  { totalDelegates := baseTotal, remainder := -1, reportingTo := [],
    justAdded := false, done := [] }

/-- The final marking pass (`reportingTo.forEach((s) => s.reportTosses = true)`,
Snapshot.ts lines 430-432). -/
def markReports (reporting : List Nat) (c : Subcaucus) : Subcaucus :=
  if c.id ∈ reporting then { c with reportTosses := true } else c

/-- The snapshot state: inputs (`allowed`, `seed`, the insertion-ordered
subcaucuses) plus the aggregate fields recomputed by
`redistributeDelegates`, plus the metadata touched by `revise`
(`name`, `revised`, `revision`; timestamps are modelled as opaque Nat). -/
@[ext] structure Snapshot where
  name : String
  allowed : Nat
  seed : Nat
  revised : Nat
  revision : String
  subcaucuses : List Subcaucus
  participants : Nat
  totalDelegates : Nat
  participantsPerDelegate : ℚ
  viabilityNumber : Nat
  viableParticipants : Nat
  delegateDivisor : ℚ
deriving Repr, DecidableEq

namespace Snapshot

/-- `subs.forEach((s) => s.clearDelegateInfo())` (Snapshot.ts line 288). -/
def clearedSubs (s : Snapshot) : List Subcaucus :=
  s.subcaucuses.map Subcaucus.clearDelegateInfo

/-- Step 1 aggregate: `participants = Σ count` (Snapshot.ts lines 291-293). -/
def computedParticipants (s : Snapshot) : Nat :=
  (s.clearedSubs.map Subcaucus.count).sum

/-- `participantsPerDelegate = participants / allowed` (Snapshot.ts line 303). -/
def pPerD (s : Snapshot) : ℚ :=
  (s.computedParticipants : ℚ) / (s.allowed : ℚ)

/-- `viabilityNumber = Math.ceil(participantsPerDelegate)` (line 304). -/
def vNumber (s : Snapshot) : Nat :=
  (Int.ceil s.pPerD).toNat

/-- `subs.filter((s) => s.count >= viabilityNumber)` (line 309). -/
def viableFilter (vn : Nat) (l : List Subcaucus) : List Subcaucus :=
  l.filter (fun c => vn ≤ c.count)

/-- The viable subcaucuses, in insertion order (line 309). -/
def vSubsOf (s : Snapshot) : List Subcaucus :=
  viableFilter s.vNumber s.clearedSubs

/-- `viableParticipants = Σ count over viable subs` (lines 310-312). -/
def vParticipants (s : Snapshot) : Nat :=
  ((s.vSubsOf).map Subcaucus.count).sum

/-- `delegateDivisor = viableParticipants / allowed` (line 317). -/
def divisor (s : Snapshot) : ℚ :=
  (s.vParticipants : ℚ) / (s.allowed : ℚ)

/-- The viable subcaucuses after `setViability` was applied to each
(`vSubs.forEach((s) => s.setViability(delegateDivisor))`, line 320); the TS
code mutates the shared records in place. -/
def vSubsV (s : Snapshot) : List Subcaucus :=
  s.vSubsOf.map (fun c => c.setViability s.divisor)

/-- `totalDelegates = Σ baseDelegates over viable subs` (lines 323-325). -/
def baseTotal (s : Snapshot) : Nat :=
  (s.vSubsV.map Subcaucus.baseDelegates).sum

/-- The shuffled pre-ranking `vSubRanks` (lines 330-347). -/
def ranks (s : Snapshot) : List Nat :=
  shuffledRanks s.seed (s.vSubsV.map Subcaucus.id)

/-- The viable subcaucuses sorted into remainder order, highest first, exact
ties broken by the pre-ranking (the `vSubs.sort` of lines 350-390), with the
coin-toss audit entries of the comparator recorded. -/
def rankedSubs (s : Snapshot) : List Subcaucus :=
  List.insertionSort (remOrder s.ranks) (s.vSubsV.map (logTosses s.ranks s.vSubsV))

/-- The leftover-seat walk over the ranked subcaucuses (lines 395-427). -/
def walkResult (s : Snapshot) : WalkState :=
  s.rankedSubs.foldl (walkStep s.allowed) (walkInit s.baseTotal)

/-- The processed viable subcaucuses after the final `reportTosses` marking
(lines 430-432). -/
def processedSubs (s : Snapshot) : List Subcaucus :=
  s.walkResult.done.map (markReports s.walkResult.reportingTo)

/-- The subcaucus list after the computation: the TS code mutates the shared
records in place, so each viable subcaucus in the insertion-ordered map now
carries its processed state while non-viable ones carry only the cleared
state.  Records are matched by id (TSMap keys are unique). -/
def finalSubs (s : Snapshot) : List Subcaucus :=
  s.clearedSubs.map fun c =>
    if s.vNumber ≤ c.count then
      (s.processedSubs.find? (fun p => p.id == c.id)).getD (c.setViability s.divisor)
    else c

/-- `Snapshot.redistributeDelegates` (Snapshot.ts lines 278-436).  The four
outcomes mirror the source's early returns: `if (!this.allowed) return`
(line 281, before anything is cleared), `if (!this.participants) return`
(line 295, after clearing and setting `participants`),
`if (!this.viableParticipants) return` (line 314, after additionally setting
`participantsPerDelegate`, `viabilityNumber` and `viableParticipants`), and
the full pass. -/
def redistributeDelegates (s : Snapshot) : Snapshot :=
  if s.allowed = 0 then s
  else if s.computedParticipants = 0 then
    { s with subcaucuses := s.clearedSubs, participants := 0 }
  else if s.vParticipants = 0 then
    { s with subcaucuses := s.clearedSubs,
             participants := s.computedParticipants,
             participantsPerDelegate := s.pPerD,
             viabilityNumber := s.vNumber,
             viableParticipants := 0 }
  else
    { s with subcaucuses := s.finalSubs,
             participants := s.computedParticipants,
             participantsPerDelegate := s.pPerD,
             viabilityNumber := s.vNumber,
             viableParticipants := s.vParticipants,
             delegateDivisor := s.divisor,
             totalDelegates := s.walkResult.totalDelegates }

/-- The update record accepted by `Snapshot.revise` (Snapshot.ts lines
211-215): each field optional. -/
structure ReviseUpdate where
  newName : Option String
  newAllowed : Option Nat
  newSeed : Option Nat
deriving Repr, DecidableEq

/-- `Snapshot.revise` (Snapshot.ts lines 211-232): stamp `revised` with the
current time and clear `revision`, then copy each update field only when its
value is truthy in TypeScript (non-empty string, non-zero number), then
recompute the delegates. -/
def revise (s : Snapshot) (now : Nat) (update : Option ReviseUpdate) : Snapshot :=
  let s1 := { s with revised := now, revision := "" }
  let s2 :=
    match update with
    | none => s1
    | some u =>
      let sa :=
        match u.newName with
        | some nm => if nm ≠ "" then { s1 with name := nm } else s1
        | none => s1
      let sb :=
        match u.newAllowed with
        | some a => if a ≠ 0 then { sa with allowed := a } else sa
        | none => sa
      match u.newSeed with
      | some sd => if sd ≠ 0 then { sb with seed := sd } else sb
      | none => sb
  s2.redistributeDelegates

end Snapshot

/-! ## Basic record lemmas -/

namespace Subcaucus

@[simp] lemma clear_id (c : Subcaucus) : c.clearDelegateInfo.id = c.id := rfl
@[simp] lemma clear_name (c : Subcaucus) : c.clearDelegateInfo.name = c.name := rfl
@[simp] lemma clear_count (c : Subcaucus) : c.clearDelegateInfo.count = c.count := rfl
@[simp] lemma clear_base (c : Subcaucus) : c.clearDelegateInfo.baseDelegates = 0 := rfl
@[simp] lemma clear_rem (c : Subcaucus) : c.clearDelegateInfo.remainder = 0 := rfl
@[simp] lemma clear_remD (c : Subcaucus) : c.clearDelegateInfo.remainderDelegates = 0 := rfl
@[simp] lemma clear_rT (c : Subcaucus) : c.clearDelegateInfo.reportTosses = false := rfl
@[simp] lemma clear_tossLog (c : Subcaucus) : c.clearDelegateInfo.tossLog = [] := rfl

@[simp] lemma clear_clear (c : Subcaucus) :
    c.clearDelegateInfo.clearDelegateInfo = c.clearDelegateInfo := rfl

lemma clear_def (c : Subcaucus) :
    c.clearDelegateInfo = ⟨c.id, c.name, c.count, 0, 0, 0, false, []⟩ := rfl

lemma clear_eq_of_core (c d : Subcaucus) (hid : c.id = d.id) (hn : c.name = d.name)
    (hc : c.count = d.count) : c.clearDelegateInfo = d.clearDelegateInfo := by
  rw [clear_def, clear_def, hid, hn, hc]

@[simp] lemma setV_id (c : Subcaucus) (d : ℚ) : (c.setViability d).id = c.id := rfl
@[simp] lemma setV_name (c : Subcaucus) (d : ℚ) : (c.setViability d).name = c.name := rfl
@[simp] lemma setV_count (c : Subcaucus) (d : ℚ) : (c.setViability d).count = c.count := rfl
@[simp] lemma setV_remD (c : Subcaucus) (d : ℚ) :
    (c.setViability d).remainderDelegates = c.remainderDelegates := rfl
@[simp] lemma setV_rT (c : Subcaucus) (d : ℚ) :
    (c.setViability d).reportTosses = c.reportTosses := rfl
@[simp] lemma setV_tossLog (c : Subcaucus) (d : ℚ) :
    (c.setViability d).tossLog = c.tossLog := rfl

lemma setV_base (c : Subcaucus) (d : ℚ) :
    (c.setViability d).baseDelegates = (Int.floor ((c.count : ℚ) / d)).toNat := rfl

lemma setV_rem (c : Subcaucus) (d : ℚ) :
    (c.setViability d).remainder = Int.fract ((c.count : ℚ) / d) := by
  rw [show (c.setViability d).remainder
        = (c.count : ℚ) / d - Int.floor ((c.count : ℚ) / d) from rfl,
      Int.self_sub_floor]

@[simp] lemma addRem_id (c : Subcaucus) : c.addRemainderDelegate.id = c.id := rfl
@[simp] lemma addRem_name (c : Subcaucus) : c.addRemainderDelegate.name = c.name := rfl
@[simp] lemma addRem_count (c : Subcaucus) : c.addRemainderDelegate.count = c.count := rfl
@[simp] lemma addRem_base (c : Subcaucus) :
    c.addRemainderDelegate.baseDelegates = c.baseDelegates := rfl
@[simp] lemma addRem_rem (c : Subcaucus) :
    c.addRemainderDelegate.remainder = c.remainder := rfl
@[simp] lemma addRem_remD (c : Subcaucus) :
    c.addRemainderDelegate.remainderDelegates = 1 := rfl
@[simp] lemma addRem_rT (c : Subcaucus) :
    c.addRemainderDelegate.reportTosses = c.reportTosses := rfl

end Subcaucus

@[simp] lemma logTosses_id (r : List Nat) (p : List Subcaucus) (c : Subcaucus) :
    (logTosses r p c).id = c.id := rfl
@[simp] lemma logTosses_name (r : List Nat) (p : List Subcaucus) (c : Subcaucus) :
    (logTosses r p c).name = c.name := rfl
@[simp] lemma logTosses_count (r : List Nat) (p : List Subcaucus) (c : Subcaucus) :
    (logTosses r p c).count = c.count := rfl
@[simp] lemma logTosses_base (r : List Nat) (p : List Subcaucus) (c : Subcaucus) :
    (logTosses r p c).baseDelegates = c.baseDelegates := rfl
@[simp] lemma logTosses_rem (r : List Nat) (p : List Subcaucus) (c : Subcaucus) :
    (logTosses r p c).remainder = c.remainder := rfl
@[simp] lemma logTosses_remD (r : List Nat) (p : List Subcaucus) (c : Subcaucus) :
    (logTosses r p c).remainderDelegates = c.remainderDelegates := rfl
@[simp] lemma logTosses_rT (r : List Nat) (p : List Subcaucus) (c : Subcaucus) :
    (logTosses r p c).reportTosses = c.reportTosses := rfl

@[simp] lemma markReports_id (r : List Nat) (c : Subcaucus) :
    (markReports r c).id = c.id := by unfold markReports; split <;> rfl
@[simp] lemma markReports_name (r : List Nat) (c : Subcaucus) :
    (markReports r c).name = c.name := by unfold markReports; split <;> rfl
@[simp] lemma markReports_count (r : List Nat) (c : Subcaucus) :
    (markReports r c).count = c.count := by unfold markReports; split <;> rfl
@[simp] lemma markReports_base (r : List Nat) (c : Subcaucus) :
    (markReports r c).baseDelegates = c.baseDelegates := by unfold markReports; split <;> rfl
@[simp] lemma markReports_rem (r : List Nat) (c : Subcaucus) :
    (markReports r c).remainder = c.remainder := by unfold markReports; split <;> rfl
@[simp] lemma markReports_remD (r : List Nat) (c : Subcaucus) :
    (markReports r c).remainderDelegates = c.remainderDelegates := by
  unfold markReports; split <;> rfl

lemma markReports_rT (r : List Nat) (c : Subcaucus) :
    (markReports r c).reportTosses = (c.reportTosses || decide (c.id ∈ r)) := by
  unfold markReports; split <;> simp_all

namespace Snapshot

/-! ## Frame lemmas: `redistributeDelegates` leaves inputs and metadata alone -/

@[simp] lemma redistribute_allowed (s : Snapshot) :
    s.redistributeDelegates.allowed = s.allowed := by
  unfold redistributeDelegates; split_ifs <;> rfl

@[simp] lemma redistribute_seed (s : Snapshot) :
    s.redistributeDelegates.seed = s.seed := by
  unfold redistributeDelegates; split_ifs <;> rfl

@[simp] lemma redistribute_name (s : Snapshot) :
    s.redistributeDelegates.name = s.name := by
  unfold redistributeDelegates; split_ifs <;> rfl

@[simp] lemma redistribute_revised (s : Snapshot) :
    s.redistributeDelegates.revised = s.revised := by
  unfold redistributeDelegates; split_ifs <;> rfl

@[simp] lemma redistribute_revision (s : Snapshot) :
    s.redistributeDelegates.revision = s.revision := by
  unfold redistributeDelegates; split_ifs <;> rfl

end Snapshot

/-! ## Claim C10: falsy-update guard in `revise` -/

namespace Snapshot

lemma revise_revised (s : Snapshot) (now : Nat) (u : Option ReviseUpdate) :
    (s.revise now u).revised = now := by
  unfold revise
  rcases u with _ | ⟨nm, al, sd⟩
  · rw [redistribute_revised]
  · rcases nm with _ | nm <;> rcases al with _ | al <;> rcases sd with _ | sd <;>
      rw [redistribute_revised] <;> dsimp only <;> split_ifs <;> rfl

lemma revise_revision (s : Snapshot) (now : Nat) (u : Option ReviseUpdate) :
    (s.revise now u).revision = "" := by
  unfold revise
  rcases u with _ | ⟨nm, al, sd⟩
  · rw [redistribute_revision]
  · rcases nm with _ | nm <;> rcases al with _ | al <;> rcases sd with _ | sd <;>
      rw [redistribute_revision] <;> dsimp only <;> split_ifs <;> rfl

lemma revise_allowed (s : Snapshot) (now : Nat) (nm : Option String)
    (al sd : Option Nat) :
    (s.revise now (some ⟨nm, al, sd⟩)).allowed
      = match al with
        | some a => if a ≠ 0 then a else s.allowed
        | none => s.allowed := by
  unfold revise
  rcases nm with _ | nm <;> rcases al with _ | al <;> rcases sd with _ | sd <;>
    rw [redistribute_allowed] <;> dsimp only <;> split_ifs <;> rfl

lemma revise_seed (s : Snapshot) (now : Nat) (nm : Option String)
    (al sd : Option Nat) :
    (s.revise now (some ⟨nm, al, sd⟩)).seed
      = match sd with
        | some a => if a ≠ 0 then a else s.seed
        | none => s.seed := by
  unfold revise
  rcases nm with _ | nm <;> rcases al with _ | al <;> rcases sd with _ | sd <;>
    rw [redistribute_seed] <;> dsimp only <;> split_ifs <;> rfl

lemma revise_name (s : Snapshot) (now : Nat) (nm : Option String)
    (al sd : Option Nat) :
    (s.revise now (some ⟨nm, al, sd⟩)).name
      = match nm with
        | some a => if a ≠ "" then a else s.name
        | none => s.name := by
  unfold revise
  rcases nm with _ | nm <;> rcases al with _ | al <;> rcases sd with _ | sd <;>
    rw [redistribute_name] <;> dsimp only <;> split_ifs <;> rfl

end Snapshot

/-- C10: for every call to `Snapshot.revise(update)`, an update whose
`allowed` is 0, whose `seed` is 0, or whose `name` is the empty string (or
that omits the field) leaves the corresponding snapshot field unchanged,
while `revised` is always set to the current time and `revision` is always
cleared to the empty string before recomputation. -/
theorem revise_falsy_guards (s : Snapshot) (now : Nat) (u : Option Snapshot.ReviseUpdate) :
    (s.revise now u).revised = now ∧ (s.revise now u).revision = "" ∧
    (∀ v, u = some v → v.newAllowed = some 0 → (s.revise now u).allowed = s.allowed) ∧
    (∀ v, u = some v → v.newSeed = some 0 → (s.revise now u).seed = s.seed) ∧
    (∀ v, u = some v → v.newName = some "" → (s.revise now u).name = s.name) := by
  refine ⟨s.revise_revised now u, s.revise_revision now u, ?_, ?_, ?_⟩ <;>
    rintro ⟨nm, al, sd⟩ rfl h0 <;> subst h0
  · rw [Snapshot.revise_allowed]; simp
  · rw [Snapshot.revise_seed]; simp
  · rw [Snapshot.revise_name]; simp

/-- Witness for C10 at a concrete snapshot and a falsy update. -/
theorem revise_falsy_guards_witness :
    (Snapshot.revise
        { name := "m", allowed := 4, seed := 9, revised := 0, revision := "r",
          subcaucuses := [], participants := 0, totalDelegates := 0,
          participantsPerDelegate := 0, viabilityNumber := 0,
          viableParticipants := 0, delegateDivisor := 0 }
        7 (some ⟨some "", some 0, some 0⟩)).revised = 7 ∧
    (Snapshot.revise
        { name := "m", allowed := 4, seed := 9, revised := 0, revision := "r",
          subcaucuses := [], participants := 0, totalDelegates := 0,
          participantsPerDelegate := 0, viabilityNumber := 0,
          viableParticipants := 0, delegateDivisor := 0 }
        7 (some ⟨some "", some 0, some 0⟩)).allowed = 4 ∧
    (Snapshot.revise
        { name := "m", allowed := 4, seed := 9, revised := 0, revision := "r",
          subcaucuses := [], participants := 0, totalDelegates := 0,
          participantsPerDelegate := 0, viabilityNumber := 0,
          viableParticipants := 0, delegateDivisor := 0 }
        7 (some ⟨some "", some 0, some 0⟩)).seed = 9 ∧
    (Snapshot.revise
        { name := "m", allowed := 4, seed := 9, revised := 0, revision := "r",
          subcaucuses := [], participants := 0, totalDelegates := 0,
          participantsPerDelegate := 0, viabilityNumber := 0,
          viableParticipants := 0, delegateDivisor := 0 }
        7 (some ⟨some "", some 0, some 0⟩)).name = "m" := by
  obtain ⟨h1, h2, h3, h4, h5⟩ :=
    revise_falsy_guards
      { name := "m", allowed := 4, seed := 9, revised := 0, revision := "r",
        subcaucuses := [], participants := 0, totalDelegates := 0,
        participantsPerDelegate := 0, viabilityNumber := 0,
        viableParticipants := 0, delegateDivisor := 0 }
      7 (some ⟨some "", some 0, some 0⟩)
  exact ⟨h1, h3 _ rfl rfl, h4 _ rfl rfl, h5 _ rfl rfl⟩

/-! ## Concrete sample builders for witnesses and counterexamples -/

/-- A fresh subcaucus with the given id and count, all derived fields at
their construction defaults. -/
def sampleSub (i c : Nat) : Subcaucus := ⟨i, "", c, 0, 0, 0, false, []⟩

/-- A snapshot as produced by the constructor with the given allowed, seed
and subcaucuses: all aggregate fields still zero. -/
def sampleSnap (a sd : Nat) (subs : List Subcaucus) : Snapshot :=
  { name := "", allowed := a, seed := sd, revised := 0, revision := "",
    subcaucuses := subs, participants := 0, totalDelegates := 0,
    participantsPerDelegate := 0, viabilityNumber := 0,
    viableParticipants := 0, delegateDivisor := 0 }

/-! ## Arithmetic bridges: the rational divisions of the proportional step
expressed over ℕ -/

lemma ratDiv_div (c V A : Nat) (hA : A ≠ 0) (hV : V ≠ 0) :
    (c : ℚ) / ((V : ℚ) / (A : ℚ)) = ((c * A : Nat) : ℚ) / ((V : Nat) : ℚ) := by
  have hA' : (A : ℚ) ≠ 0 := Nat.cast_ne_zero.mpr hA
  have hV' : (V : ℚ) ≠ 0 := Nat.cast_ne_zero.mpr hV
  push_cast
  field_simp

lemma floor_toNat_natCast_div (m V : Nat) :
    (Int.floor ((m : ℚ) / (V : ℚ))).toNat = m / V := by
  rw [Int.floor_toNat, Nat.floor_div_nat, Nat.floor_natCast]

lemma fract_natCast_div (m V : Nat) (hV : V ≠ 0) :
    Int.fract ((m : ℚ) / (V : ℚ)) = ((m % V : Nat) : ℚ) / (V : ℚ) := by
  have hV' : (V : ℚ) ≠ 0 := Nat.cast_ne_zero.mpr hV
  have hVpos : (0 : ℚ) < (V : ℚ) := by
    have := Nat.pos_of_ne_zero hV
    exact_mod_cast this
  have hm : (m : ℚ) = (V : ℚ) * ((m / V : Nat) : ℚ) + ((m % V : Nat) : ℚ) := by
    exact_mod_cast (Nat.div_add_mod m V).symm
  have hsplit : (m : ℚ) / (V : ℚ)
      = ((m / V : Nat) : ℚ) + ((m % V : Nat) : ℚ) / (V : ℚ) := by
    rw [hm, add_div, mul_comm, mul_div_assoc, div_self hV', mul_one]
  rw [hsplit, Int.fract_nat_add, Int.fract_eq_self.mpr]
  refine ⟨by positivity, ?_⟩
  rw [div_lt_one hVpos]
  exact_mod_cast Nat.mod_lt m (Nat.pos_of_ne_zero hV)

lemma setV_base_nat (c : Subcaucus) (A V : Nat) (hA : A ≠ 0) (hV : V ≠ 0) :
    (c.setViability ((V : ℚ) / (A : ℚ))).baseDelegates = c.count * A / V := by
  rw [Subcaucus.setV_base, ratDiv_div c.count V A hA hV, floor_toNat_natCast_div]

lemma setV_rem_nat (c : Subcaucus) (A V : Nat) (hA : A ≠ 0) (hV : V ≠ 0) :
    (c.setViability ((V : ℚ) / (A : ℚ))).remainder
      = ((c.count * A % V : Nat) : ℚ) / (V : ℚ) := by
  rw [Subcaucus.setV_rem, ratDiv_div c.count V A hA hV, fract_natCast_div _ _ hV]

lemma toNat_ceil_natCast_div (p A : Nat) (hA : A ≠ 0) :
    (Int.ceil ((p : ℚ) / (A : ℚ))).toNat = (p + A - 1) / A := by
  have hA0 : 0 < A := Nat.pos_of_ne_zero hA
  rcases Nat.eq_zero_or_pos p with hp | hp
  · subst hp
    simp [Nat.div_eq_of_lt (by omega : A - 1 < A)]
  · set N := (p + A - 1) / A with hN
    have hx := Nat.div_add_mod (p + A - 1) A
    have hxc : N * A + (p + A - 1) % A = p + A - 1 := by
      rw [Nat.mul_comm]; exact hx
    have hmod : (p + A - 1) % A < A := Nat.mod_lt _ hA0
    have key1 : p ≤ N * A := by omega
    have key2 : N * A < p + A := by omega
    have hstrict : (N - 1) * A < p := by
      rw [Nat.sub_mul, Nat.one_mul]; omega
    have hN0 : N ≠ 0 := by
      intro h
      rw [h, Nat.zero_mul] at key1
      omega
    rw [Int.ceil_toNat, Nat.ceil_eq_iff hN0]
    have hAq : (0 : ℚ) < (A : ℚ) := by exact_mod_cast hA0
    constructor
    · rw [lt_div_iff₀ hAq]
      exact_mod_cast hstrict
    · rw [div_le_iff₀ hAq]
      exact_mod_cast key1

/-! ## Sum bounds for the conservation argument -/

lemma sum_div_mul_le (l : List Nat) (V : Nat) :
    ((l.map (fun m => m / V)).sum) * V ≤ l.sum := by
  induction l with
  | nil => simp
  | cons a t ih =>
    simp only [List.map_cons, List.sum_cons, Nat.add_mul]
    exact Nat.add_le_add (Nat.div_mul_le_self a V) ih

lemma sum_div_le (l : List Nat) (V : Nat) (hV : V ≠ 0) :
    (l.map (fun m => m / V)).sum ≤ l.sum / V := by
  rw [Nat.le_div_iff_mul_le (Nat.pos_of_ne_zero hV)]
  exact sum_div_mul_le l V

lemma sum_map_mul_right (l : List Nat) (A : Nat) :
    (l.map (fun m => m * A)).sum = l.sum * A := by
  induction l with
  | nil => simp
  | cons a t ih => simp only [List.map_cons, List.sum_cons, Nat.add_mul, ih]

lemma sum_map_add_const {α : Type} (l : List α) (f : α → Nat) (k : Nat) :
    (l.map (fun m => f m + k)).sum = (l.map f).sum + l.length * k := by
  induction l with
  | nil => simp
  | cons a t ih =>
    simp only [List.map_cons, List.sum_cons, List.length_cons, ih]
    ring

lemma lt_sum_base_add_length (l : List Nat) (A V : Nat) (hV : V ≠ 0)
    (hsum : l.sum = V) :
    A < (l.map (fun m => m * A / V)).sum + l.length := by
  have hV0 : 0 < V := Nat.pos_of_ne_zero hV
  have hn : 1 ≤ l.length := by
    rcases l with _ | ⟨a, t⟩
    · simp at hsum; omega
    · simp
  by_contra hcon
  push_neg at hcon
  set S := (l.map (fun m => m * A / V)).sum with hS
  set n := l.length with hlen
  have hVA : (l.map (fun m => m * A)).sum = V * A := by
    rw [sum_map_mul_right, hsum]
  have hpoint : ∀ m ∈ l, m * A ≤ (m * A / V) * V + (V - 1) := by
    intro m _
    have h := Nat.div_add_mod (m * A) V
    have h2 : m * A % V < V := Nat.mod_lt _ hV0
    have h3 : (m * A / V) * V = V * (m * A / V) := Nat.mul_comm _ _
    omega
  have hsum2 : (l.map (fun m => m * A)).sum
      ≤ (l.map (fun m => (m * A / V) * V + (V - 1))).sum :=
    List.sum_le_sum hpoint
  rw [sum_map_add_const l (fun m => (m * A / V) * V) (V - 1)] at hsum2
  have hSV : (l.map (fun m => (m * A / V) * V)).sum = S * V := by
    rw [hS, ← sum_map_mul_right]
    congr 1
    rw [List.map_map]
    rfl
  rw [hSV, hVA] at hsum2
  have e1 : n * (V - 1) + n = n * V := by
    have hV1 : V - 1 + 1 = V := by omega
    calc n * (V - 1) + n = n * (V - 1 + 1) := by ring
    _ = n * V := by rw [hV1]
  have e2 : (S + n) * V = S * V + n * V := Nat.add_mul S n V
  have h1 : (S + n) * V ≤ A * V := Nat.mul_le_mul_right V hcon
  have hc : V * A = A * V := Nat.mul_comm V A
  have k1 : S * V + n * V ≤ A * V := by rw [← e2]; exact h1
  have k2 : A * V ≤ S * V + n * (V - 1) := by rw [← hc]; exact hsum2
  have k3 : n * V ≤ n * (V - 1) := by omega
  omega

/-! ## The leftover-seat walk: `done` list and running total -/

/-- Proof-side view of the seat assignments made by the walk: the records the
walk appends to its `done` list, as a function of the running total. -/
def walkAssign (allowed : Nat) : Nat → List Subcaucus → List Subcaucus
  | _, [] => []
  | t, c :: l =>
    if t < allowed then c.addRemainderDelegate :: walkAssign allowed (t + 1) l
    else c :: walkAssign allowed t l

lemma walkStep_total (A : Nat) (st : WalkState) (c : Subcaucus) :
    (walkStep A st c).totalDelegates
      = if st.totalDelegates < A then st.totalDelegates + 1
        else st.totalDelegates := by
  unfold walkStep
  split_ifs with h1 h2 h3 <;> first | rfl | exact absurd h2 h1 | exact absurd h1 h3

lemma walkStep_done (A : Nat) (st : WalkState) (c : Subcaucus) :
    (walkStep A st c).done
      = st.done ++ [if st.totalDelegates < A then c.addRemainderDelegate else c] := by
  unfold walkStep
  split_ifs with h1 h2 h3 <;> first | rfl | exact absurd h2 h1 | exact absurd h1 h3

lemma walkAssign_cons (A t : Nat) (c : Subcaucus) (l : List Subcaucus) :
    walkAssign A t (c :: l)
      = if t < A then c.addRemainderDelegate :: walkAssign A (t + 1) l
        else c :: walkAssign A t l := rfl

lemma walkAssign_of_ge (A : Nat) :
    ∀ (l : List Subcaucus) (t : Nat), A ≤ t → walkAssign A t l = l := by
  intro l
  induction l with
  | nil => intro t h; rfl
  | cons c l ih =>
    intro t h
    rw [walkAssign_cons, if_neg (by omega), ih t h]

lemma walk_foldl_done (A : Nat) :
    ∀ (l : List Subcaucus) (st : WalkState),
      (l.foldl (walkStep A) st).done = st.done ++ walkAssign A st.totalDelegates l := by
  intro l
  induction l with
  | nil => intro st; simp [walkAssign]
  | cons c l ih =>
    intro st
    rw [List.foldl_cons, ih]
    rw [walkStep_done, walkStep_total, walkAssign_cons]
    split_ifs with h
    · simp
    · simp

lemma walk_foldl_total (A : Nat) :
    ∀ (l : List Subcaucus) (st : WalkState), st.totalDelegates ≤ A →
      (l.foldl (walkStep A) st).totalDelegates
        = min A (st.totalDelegates + l.length) := by
  intro l
  induction l with
  | nil => intro st h; simp; omega
  | cons c l ih =>
    intro st h
    rw [List.foldl_cons]
    have ht := walkStep_total A st c
    split_ifs at ht with h1
    · rw [ih _ (by omega)]
      rw [ht]
      simp only [List.length_cons]
      omega
    · rw [ih _ (by rw [ht]; omega)]
      rw [ht]
      simp only [List.length_cons]
      omega

lemma walkAssign_take_drop (A : Nat) :
    ∀ (l : List Subcaucus) (t : Nat),
      walkAssign A t l
        = (l.take (A - t)).map Subcaucus.addRemainderDelegate ++ l.drop (A - t) := by
  intro l
  induction l with
  | nil => intro t; simp [walkAssign]
  | cons c l ih =>
    intro t
    rw [walkAssign_cons]
    split_ifs with h
    · have hAt : A - t = (A - (t + 1)) + 1 := by omega
      rw [hAt]
      simp only [List.take_succ_cons, List.map_cons, List.drop_succ_cons,
        List.cons_append]
      rw [ih]
    · have hAt : A - t = 0 := by omega
      rw [hAt]
      simp [walkAssign_of_ge A l t (by omega)]

/-! ## The seeded shuffle is a permutation -/

lemma randomUpTo_lt (g : SubCalcPRNG) (b : Nat) (hb : b ≠ 0) :
    (g.randomUpTo b).1 < b :=
  Nat.mod_lt _ (Nat.pos_of_ne_zero hb)

lemma set_getD_self : ∀ (xs : List Nat) (i : Nat), i < xs.length →
    xs.set i (xs.getD i 0) = xs := by
  intro xs
  induction xs with
  | nil => intro i h; simp at h
  | cons x t ih =>
    intro i h
    cases i with
    | zero => rfl
    | succ j =>
      simp only [List.getD_cons_succ, List.set_cons_succ]
      rw [ih j (by simpa using h)]

lemma cons_set_perm : ∀ (t : List Nat) (k : Nat) (x : Nat), k < t.length →
    ((t.getD k 0) :: t.set k x).Perm (x :: t) := by
  intro t
  induction t with
  | nil => intro k x h; simp at h
  | cons y t ih =>
    intro k x h
    cases k with
    | zero =>
      simpa using List.Perm.swap x y t
    | succ j =>
      simp only [List.getD_cons_succ, List.set_cons_succ]
      refine List.Perm.trans (List.Perm.swap _ _ _) ?_
      refine List.Perm.trans (List.Perm.cons y (ih j x (by simpa using h))) ?_
      exact List.Perm.swap _ _ _

lemma swap_set_perm : ∀ (xs : List Nat) (i j : Nat), i < j → j < xs.length →
    ((xs.set j (xs.getD i 0)).set i (xs.getD j 0)).Perm xs := by
  intro xs
  induction xs with
  | nil => intro i j hij hj; simp at hj
  | cons x t ih =>
    intro i j hij hj
    cases j with
    | zero => omega
    | succ j2 =>
      cases i with
      | zero =>
        simp only [List.getD_cons_zero, List.set_cons_succ, List.getD_cons_succ,
          List.set_cons_zero]
        exact cons_set_perm t j2 x (by simpa using hj)
      | succ i2 =>
        simp only [List.set_cons_succ, List.getD_cons_succ]
        exact List.Perm.cons x (ih i2 j2 (by omega) (by simpa using hj))

lemma shuffleAux_succ (m : Nat) (xs : List Nat) (g : SubCalcPRNG) :
    shuffleAux (m + 1) xs g
      = shuffleAux m
          ((xs.set m (xs.getD (g.randomUpTo (m + 1)).1 0)).set
            (g.randomUpTo (m + 1)).1 (xs.getD m 0))
          (g.randomUpTo (m + 1)).2 := rfl

lemma shuffleAux_perm : ∀ (n : Nat) (xs : List Nat) (g : SubCalcPRNG),
    n ≤ xs.length → (shuffleAux n xs g).1.Perm xs := by
  intro n
  induction n with
  | zero => intro xs g h; exact List.Perm.refl xs
  | succ m ih =>
    intro xs g h
    rw [shuffleAux_succ]
    have hib : (g.randomUpTo (m + 1)).1 < m + 1 := randomUpTo_lt g (m + 1) (by omega)
    have hm : m < xs.length := by omega
    set i := (g.randomUpTo (m + 1)).1 with hidef
    set ys := (xs.set m (xs.getD i 0)).set i (xs.getD m 0) with hys
    have hlen : ys.length = xs.length := by rw [hys]; simp
    have hperm : ys.Perm xs := by
      rcases Nat.lt_or_ge i m with hlt | hge
      · exact swap_set_perm xs i m hlt hm
      · have him : i = m := by omega
        rw [hys, him, List.set_set, set_getD_self xs m hm]
    exact (ih ys _ (by omega)).trans hperm

lemma shuffledRanks_perm (seed : Nat) (ids : List Nat) :
    (shuffledRanks seed ids).Perm ids :=
  shuffleAux_perm ids.length ids (SubCalcPRNG.init seed) (Nat.le_refl _)

/-! ## Projection machinery: fields the walk and marking never change -/

/-- The per-subcaucus data unchanged by the toss-log, walk and marking
stages: id, name, count, baseDelegates, remainder. -/
def dproj (c : Subcaucus) : Nat × String × Nat × Nat × ℚ :=
  (c.id, c.name, c.count, c.baseDelegates, c.remainder)

@[simp] lemma dproj_logTosses (r : List Nat) (p : List Subcaucus) (c : Subcaucus) :
    dproj (logTosses r p c) = dproj c := rfl

@[simp] lemma dproj_addRem (c : Subcaucus) :
    dproj c.addRemainderDelegate = dproj c := rfl

@[simp] lemma dproj_markReports (r : List Nat) (c : Subcaucus) :
    dproj (markReports r c) = dproj c := by
  unfold markReports
  split <;> rfl

lemma walkAssign_map_dproj (A : Nat) :
    ∀ (l : List Subcaucus) (t : Nat),
      (walkAssign A t l).map dproj = l.map dproj := by
  intro l
  induction l with
  | nil => intro t; rfl
  | cons c l ih =>
    intro t
    unfold walkAssign
    split_ifs with h <;> simp [ih]

namespace Snapshot

lemma processed_map_dproj (s : Snapshot) :
    s.processedSubs.map dproj = s.rankedSubs.map dproj := by
  unfold processedSubs
  rw [List.map_map]
  have h1 : (markReports s.walkResult.reportingTo) ∘ id = markReports s.walkResult.reportingTo := rfl
  have h2 : s.walkResult.done = walkAssign s.allowed s.baseTotal s.rankedSubs := by
    unfold walkResult
    rw [walk_foldl_done]
    rfl
  rw [h2]
  calc (walkAssign s.allowed s.baseTotal s.rankedSubs).map
        (dproj ∘ markReports s.walkResult.reportingTo)
      = (walkAssign s.allowed s.baseTotal s.rankedSubs).map dproj := by
        apply List.map_congr_left
        intro c _
        exact dproj_markReports _ c
  _ = s.rankedSubs.map dproj := walkAssign_map_dproj _ _ _

lemma ranked_map_dproj_perm (s : Snapshot) :
    (s.rankedSubs.map dproj).Perm (s.vSubsV.map dproj) := by
  unfold rankedSubs
  have hperm := (List.perm_insertionSort (remOrder s.ranks)
    (s.vSubsV.map (logTosses s.ranks s.vSubsV))).map dproj
  rw [List.map_map] at hperm
  have heq : s.vSubsV.map (dproj ∘ logTosses s.ranks s.vSubsV)
      = s.vSubsV.map dproj := by
    apply List.map_congr_left
    intro c _
    rfl
  rw [heq] at hperm
  exact hperm

lemma processed_map_dproj_perm (s : Snapshot) :
    (s.processedSubs.map dproj).Perm (s.vSubsV.map dproj) := by
  rw [processed_map_dproj]
  exact ranked_map_dproj_perm s

end Snapshot

/-! ## `find?` by id on lists with distinct ids -/

lemma find?_id_eq_self : ∀ (l : List Subcaucus),
    (l.map Subcaucus.id).Nodup → ∀ p ∈ l,
      l.find? (fun q => q.id == p.id) = some p := by
  intro l
  induction l with
  | nil => intro _ p hp; simp at hp
  | cons a t ih =>
    intro hnd p hp
    simp only [List.map_cons, List.nodup_cons] at hnd
    rcases List.mem_cons.mp hp with rfl | hpt
    · rw [List.find?_cons_of_pos _ (by simp)]
    · have hne : a.id ≠ p.id := by
        intro h
        exact hnd.1 (h ▸ List.mem_map_of_mem Subcaucus.id hpt)
      rw [List.find?_cons_of_neg _ (by simpa using hne)]
      exact ih hnd.2 p hpt

lemma find?_id_mem_of_mem_ids (l : List Subcaucus) (i : Nat)
    (h : i ∈ l.map Subcaucus.id) :
    ∃ q, l.find? (fun q => q.id == i) = some q ∧ q.id = i ∧ q ∈ l := by
  obtain ⟨c, hc, rfl⟩ := List.mem_map.mp h
  have : ∃ x ∈ l, (fun q : Subcaucus => q.id == c.id) x = true := ⟨c, hc, by simp⟩
  obtain ⟨q, hq⟩ := Option.isSome_iff_exists.mp (List.find?_isSome.mpr this)
  exact ⟨q, hq, by simpa using List.find?_some hq, List.mem_of_find?_eq_some hq⟩

/-! ## Splitting a sum over a list by a predicate -/

lemma sum_map_filter_split {α : Type} (l : List α) (p : α → Bool) (g : α → Nat) :
    (l.map g).sum = ((l.filter p).map g).sum + ((l.filter (fun c => !(p c))).map g).sum := by
  induction l with
  | nil => simp
  | cons a t ih =>
    by_cases h : p a = true
    · simp [List.filter_cons, h, ih]
      omega
    · simp only [Bool.not_eq_true] at h
      simp [List.filter_cons, h, ih]
      omega

/-- Two lists of subcaucuses with the same multiset of (distinct) ids, one
containing the other memberwise, are permutations of each other. -/
lemma perm_of_ids (X Y : List Subcaucus)
    (hY : (Y.map Subcaucus.id).Nodup)
    (hids : (X.map Subcaucus.id).Perm (Y.map Subcaucus.id))
    (hsub : ∀ c ∈ X, c ∈ Y) : X.Perm Y := by
  have hXids : (X.map Subcaucus.id).Nodup := hids.nodup_iff.mpr hY
  have hX : X.Nodup := List.Nodup.of_map _ hXids
  have hYn : Y.Nodup := List.Nodup.of_map _ hY
  rw [List.perm_ext_iff_of_nodup hX hYn]
  intro a
  constructor
  · exact fun ha => hsub a ha
  · intro ha
    have h1 : a.id ∈ X.map Subcaucus.id :=
      hids.mem_iff.mpr (List.mem_map_of_mem Subcaucus.id ha)
    obtain ⟨c, hcX, hcid⟩ := List.mem_map.mp h1
    have hcY : c ∈ Y := hsub c hcX
    have : c = a := List.inj_on_of_nodup_map hY hcY ha hcid
    rwa [← this]

namespace Snapshot

/-! ## Aggregate identities used by the conservation proof -/

lemma vSubsOf_counts_sum (s : Snapshot) :
    (s.vSubsOf.map Subcaucus.count).sum = s.vParticipants := rfl

lemma baseTotal_eq (s : Snapshot) (hA : s.allowed ≠ 0) (hV : s.vParticipants ≠ 0) :
    s.baseTotal = ((s.vSubsOf.map Subcaucus.count).map
      (fun m => m * s.allowed / s.vParticipants)).sum := by
  unfold baseTotal vSubsV
  rw [List.map_map, List.map_map]
  apply congrArg List.sum
  apply List.map_congr_left
  intro c _
  show (c.setViability s.divisor).baseDelegates = c.count * s.allowed / s.vParticipants
  unfold divisor
  exact setV_base_nat c s.allowed s.vParticipants hA hV

lemma baseTotal_le (s : Snapshot) (hA : s.allowed ≠ 0) (hV : s.vParticipants ≠ 0) :
    s.baseTotal ≤ s.allowed := by
  rw [baseTotal_eq s hA hV]
  set l := s.vSubsOf.map Subcaucus.count with hl
  have hmm : l.map (fun m => m * s.allowed / s.vParticipants)
      = (l.map (fun m => m * s.allowed)).map (fun m => m / s.vParticipants) := by
    simp only [List.map_map]
    rfl
  rw [hmm]
  calc ((l.map (fun m => m * s.allowed)).map (fun m => m / s.vParticipants)).sum
      ≤ (l.map (fun m => m * s.allowed)).sum / s.vParticipants :=
        sum_div_le _ _ hV
  _ = l.sum * s.allowed / s.vParticipants := by rw [sum_map_mul_right]
  _ = s.vParticipants * s.allowed / s.vParticipants := by
        rw [hl, vSubsOf_counts_sum]
  _ = s.allowed := Nat.mul_div_cancel_left _ (Nat.pos_of_ne_zero hV)

lemma allowed_lt_baseTotal_add (s : Snapshot) (hA : s.allowed ≠ 0)
    (hV : s.vParticipants ≠ 0) :
    s.allowed < s.baseTotal + s.vSubsOf.length := by
  rw [baseTotal_eq s hA hV]
  have h := lt_sum_base_add_length (s.vSubsOf.map Subcaucus.count) s.allowed
    s.vParticipants hV (vSubsOf_counts_sum s)
  simpa using h

lemma rankedSubs_length (s : Snapshot) :
    s.rankedSubs.length = s.vSubsOf.length := by
  unfold rankedSubs
  rw [List.length_insertionSort, List.length_map]
  unfold vSubsV
  rw [List.length_map]

lemma walkResult_total (s : Snapshot) (hA : s.allowed ≠ 0) (hV : s.vParticipants ≠ 0) :
    s.walkResult.totalDelegates = s.allowed := by
  unfold walkResult
  rw [walk_foldl_total s.allowed s.rankedSubs (walkInit s.baseTotal)
    (baseTotal_le s hA hV)]
  have h1 := allowed_lt_baseTotal_add s hA hV
  have h2 := rankedSubs_length s
  show min s.allowed (s.baseTotal + s.rankedSubs.length) = s.allowed
  omega

lemma processed_done_eq (s : Snapshot) :
    s.walkResult.done = walkAssign s.allowed s.baseTotal s.rankedSubs := by
  unfold walkResult
  rw [walk_foldl_done]
  rfl

lemma mem_rankedSubs (s : Snapshot) {c : Subcaucus} (hc : c ∈ s.rankedSubs) :
    ∃ c0 ∈ s.vSubsOf, c = logTosses s.ranks s.vSubsV (c0.setViability s.divisor) := by
  unfold rankedSubs at hc
  have h := (List.perm_insertionSort (remOrder s.ranks)
    (s.vSubsV.map (logTosses s.ranks s.vSubsV))).mem_iff.mp hc
  obtain ⟨c1, hc1, rfl⟩ := List.mem_map.mp h
  unfold vSubsV at hc1
  obtain ⟨c0, hc0, rfl⟩ := List.mem_map.mp hc1
  exact ⟨c0, hc0, rfl⟩

lemma mem_vSubsOf_cleared (s : Snapshot) {c : Subcaucus} (hc : c ∈ s.vSubsOf) :
    c ∈ s.clearedSubs ∧ s.vNumber ≤ c.count := by
  unfold vSubsOf viableFilter at hc
  have h := List.mem_filter.mp hc
  exact ⟨h.1, by simpa using h.2⟩

lemma mem_clearedSubs (s : Snapshot) {c : Subcaucus} (hc : c ∈ s.clearedSubs) :
    c.baseDelegates = 0 ∧ c.remainder = 0 ∧ c.remainderDelegates = 0 ∧
      c.reportTosses = false ∧ c.tossLog = [] := by
  unfold clearedSubs at hc
  obtain ⟨c0, _, rfl⟩ := List.mem_map.mp hc
  simp

lemma ranked_remD_zero (s : Snapshot) : ∀ c ∈ s.rankedSubs, c.remainderDelegates = 0 := by
  intro c hc
  obtain ⟨c0, hc0, rfl⟩ := mem_rankedSubs s hc
  have h0 : c0.remainderDelegates = 0 := (mem_clearedSubs s (mem_vSubsOf_cleared s hc0).1).2.2.1
  simp [h0]

lemma ranked_base_sum (s : Snapshot) :
    (s.rankedSubs.map Subcaucus.baseDelegates).sum = s.baseTotal := by
  have h := (ranked_map_dproj_perm s).map (fun t => t.2.2.2.1)
  rw [List.map_map, List.map_map] at h
  have e1 : s.rankedSubs.map ((fun t : Nat × String × Nat × Nat × ℚ => t.2.2.2.1) ∘ dproj)
      = s.rankedSubs.map Subcaucus.baseDelegates := rfl
  have e2 : s.vSubsV.map ((fun t : Nat × String × Nat × Nat × ℚ => t.2.2.2.1) ∘ dproj)
      = s.vSubsV.map Subcaucus.baseDelegates := rfl
  rw [e1, e2] at h
  exact h.sum_eq

lemma processed_sum_total (s : Snapshot) (hA : s.allowed ≠ 0) (hV : s.vParticipants ≠ 0) :
    (s.processedSubs.map (fun c => c.baseDelegates + c.remainderDelegates)).sum
      = s.allowed := by
  unfold processedSubs
  rw [processed_done_eq, List.map_map]
  have hpoint : (walkAssign s.allowed s.baseTotal s.rankedSubs).map
      ((fun c => c.baseDelegates + c.remainderDelegates)
        ∘ markReports s.walkResult.reportingTo)
      = (walkAssign s.allowed s.baseTotal s.rankedSubs).map
        (fun c => c.baseDelegates + c.remainderDelegates) := by
    apply List.map_congr_left
    intro c _
    simp
  rw [hpoint, walkAssign_take_drop]
  set D := s.allowed - s.baseTotal with hD
  rw [List.map_append, List.sum_append, List.map_map]
  have htake : ((s.rankedSubs.take D).map
      ((fun c => c.baseDelegates + c.remainderDelegates)
        ∘ Subcaucus.addRemainderDelegate)).sum
      = ((s.rankedSubs.take D).map Subcaucus.baseDelegates).sum
        + (s.rankedSubs.take D).length := by
    have e : ((s.rankedSubs.take D).map
        ((fun c => c.baseDelegates + c.remainderDelegates)
          ∘ Subcaucus.addRemainderDelegate))
        = ((s.rankedSubs.take D).map (fun c => c.baseDelegates + 1)) := by
      apply List.map_congr_left
      intro c _
      simp
    rw [e, sum_map_add_const, Nat.mul_one]
  have hdrop : ((s.rankedSubs.drop D).map
      (fun c => c.baseDelegates + c.remainderDelegates)).sum
      = ((s.rankedSubs.drop D).map Subcaucus.baseDelegates).sum := by
    apply congrArg List.sum
    apply List.map_congr_left
    intro c hc
    have h0 : c.remainderDelegates = 0 :=
      ranked_remD_zero s c (List.drop_subset D s.rankedSubs hc)
    omega
  rw [htake, hdrop]
  have hsplit : ((s.rankedSubs.take D).map Subcaucus.baseDelegates).sum
      + ((s.rankedSubs.drop D).map Subcaucus.baseDelegates).sum = s.baseTotal := by
    rw [List.map_take, List.map_drop, List.sum_take_add_sum_drop, ranked_base_sum]
  have hlen : (s.rankedSubs.take D).length = D := by
    rw [List.length_take]
    have h1 := allowed_lt_baseTotal_add s hA hV
    have h2 := rankedSubs_length s
    have : D ≤ s.rankedSubs.length := by omega
    omega
  have hBA : s.baseTotal ≤ s.allowed := baseTotal_le s hA hV
  omega

/-! ## Ids and `find?` plumbing for the write-back step -/

lemma clearedSubs_ids (s : Snapshot) :
    s.clearedSubs.map Subcaucus.id = s.subcaucuses.map Subcaucus.id := by
  unfold clearedSubs
  rw [List.map_map]
  rfl

lemma clearedSubs_ids_nodup (s : Snapshot)
    (hnd : (s.subcaucuses.map Subcaucus.id).Nodup) :
    (s.clearedSubs.map Subcaucus.id).Nodup := by
  rw [clearedSubs_ids]
  exact hnd

lemma vSubsOf_ids_nodup (s : Snapshot)
    (hnd : (s.subcaucuses.map Subcaucus.id).Nodup) :
    (s.vSubsOf.map Subcaucus.id).Nodup := by
  have h1 := clearedSubs_ids_nodup s hnd
  unfold vSubsOf viableFilter
  exact ((List.filter_sublist _).map Subcaucus.id).nodup h1

lemma vSubsV_ids (s : Snapshot) :
    s.vSubsV.map Subcaucus.id = s.vSubsOf.map Subcaucus.id := by
  unfold vSubsV
  rw [List.map_map]
  rfl

lemma processed_ids_perm (s : Snapshot) :
    (s.processedSubs.map Subcaucus.id).Perm (s.vSubsOf.map Subcaucus.id) := by
  have h := (processed_map_dproj_perm s).map
    (fun t : Nat × String × Nat × Nat × ℚ => t.1)
  rw [List.map_map, List.map_map] at h
  have e1 : s.processedSubs.map ((fun t : Nat × String × Nat × Nat × ℚ => t.1) ∘ dproj)
      = s.processedSubs.map Subcaucus.id := rfl
  have e2 : s.vSubsV.map ((fun t : Nat × String × Nat × Nat × ℚ => t.1) ∘ dproj)
      = s.vSubsV.map Subcaucus.id := rfl
  rw [e1, e2, vSubsV_ids] at h
  exact h

lemma processed_ids_nodup (s : Snapshot)
    (hnd : (s.subcaucuses.map Subcaucus.id).Nodup) :
    (s.processedSubs.map Subcaucus.id).Nodup :=
  (processed_ids_perm s).nodup_iff.mpr (vSubsOf_ids_nodup s hnd)

/-- For a viable cleared subcaucus, the record written back by `finalSubs`
is the unique processed record with its id; it preserves id, name and count
and carries the `setViability` base and remainder. -/
lemma finalSubs_viable_val (s : Snapshot)
    (hnd : (s.subcaucuses.map Subcaucus.id).Nodup)
    (c0 : Subcaucus) (hc0 : c0 ∈ s.clearedSubs) (hv : s.vNumber ≤ c0.count) :
    ∃ q, (s.processedSubs.find? (fun p => p.id == c0.id)).getD
        (c0.setViability s.divisor) = q ∧
      q ∈ s.processedSubs ∧ q.id = c0.id ∧ q.name = c0.name ∧ q.count = c0.count ∧
      q.baseDelegates = (c0.setViability s.divisor).baseDelegates ∧
      q.remainder = (c0.setViability s.divisor).remainder := by
  have hc0v : c0 ∈ s.vSubsOf := by
    unfold vSubsOf viableFilter
    rw [List.mem_filter]
    exact ⟨hc0, by simpa using hv⟩
  have hid : c0.id ∈ s.processedSubs.map Subcaucus.id :=
    (processed_ids_perm s).mem_iff.mpr (List.mem_map_of_mem Subcaucus.id hc0v)
  obtain ⟨q, hfind, hqid, hqmem⟩ := find?_id_mem_of_mem_ids s.processedSubs c0.id hid
  refine ⟨q, by rw [hfind]; rfl, hqmem, hqid, ?_, ?_, ?_, ?_⟩ <;>
  · have hdq : dproj q ∈ s.processedSubs.map dproj := List.mem_map_of_mem dproj hqmem
    have hdq2 : dproj q ∈ s.vSubsV.map dproj :=
      (processed_map_dproj_perm s).mem_iff.mp hdq
    obtain ⟨v, hv1, hv2⟩ := List.mem_map.mp hdq2
    obtain ⟨c1, hc1, rfl⟩ := List.mem_map.mp (by exact hv1 : v ∈ s.vSubsOf.map (fun c => c.setViability s.divisor))
    have hc1id : c1.id = c0.id := by
      have : (c1.setViability s.divisor).id = q.id := congrArg (fun t => t.1) hv2
      simpa [hqid] using this
    have hc1c0 : c1 = c0 := by
      have hnodup := vSubsOf_ids_nodup s hnd
      exact List.inj_on_of_nodup_map hnodup hc1 hc0v hc1id
    subst hc1c0
    have h1 := congrArg (fun t : Nat × String × Nat × Nat × ℚ => t.2.1) hv2
    have h2 := congrArg (fun t : Nat × String × Nat × Nat × ℚ => t.2.2.1) hv2
    have h3 := congrArg (fun t : Nat × String × Nat × Nat × ℚ => t.2.2.2.1) hv2
    have h4 := congrArg (fun t : Nat × String × Nat × Nat × ℚ => t.2.2.2.2) hv2
    simp only [dproj] at h1 h2 h3 h4
    simp_all

lemma finalSubs_count_pointwise (s : Snapshot)
    (hnd : (s.subcaucuses.map Subcaucus.id).Nodup) :
    ∀ c ∈ s.clearedSubs,
      ((if s.vNumber ≤ c.count then
          (s.processedSubs.find? (fun p => p.id == c.id)).getD
            (c.setViability s.divisor)
        else c) : Subcaucus).count = c.count := by
  intro c hc
  split_ifs with h
  · obtain ⟨q, hq, _, _, _, hcount, _⟩ := finalSubs_viable_val s hnd c hc h
    rw [hq, hcount]
  · rfl

lemma finalSubs_filter_viable (s : Snapshot)
    (hnd : (s.subcaucuses.map Subcaucus.id).Nodup) :
    (s.finalSubs.filter (fun c => decide (s.vNumber ≤ c.count))).Perm
      s.processedSubs := by
  unfold finalSubs
  rw [List.filter_map]
  have hcong : s.clearedSubs.filter
      ((fun c => decide (s.vNumber ≤ c.count)) ∘ (fun c =>
        if s.vNumber ≤ c.count then
          (s.processedSubs.find? (fun p => p.id == c.id)).getD
            (c.setViability s.divisor)
        else c))
      = s.clearedSubs.filter (fun c => decide (s.vNumber ≤ c.count)) := by
    apply List.filter_congr
    intro c hc
    show decide (s.vNumber ≤ _) = decide (s.vNumber ≤ c.count)
    rw [finalSubs_count_pointwise s hnd c hc]
  rw [hcong]
  have hvs : s.clearedSubs.filter (fun c => decide (s.vNumber ≤ c.count))
      = s.vSubsOf := rfl
  rw [hvs]
  apply perm_of_ids _ _ (processed_ids_nodup s hnd)
  · have e : (s.vSubsOf.map (fun c =>
        if s.vNumber ≤ c.count then
          (s.processedSubs.find? (fun p => p.id == c.id)).getD
            (c.setViability s.divisor)
        else c)).map Subcaucus.id = s.vSubsOf.map Subcaucus.id := by
      rw [List.map_map]
      apply List.map_congr_left
      intro c hc
      obtain ⟨hcm, hcv⟩ := mem_vSubsOf_cleared s hc
      show ((if s.vNumber ≤ c.count then _ else c) : Subcaucus).id = c.id
      rw [if_pos hcv]
      obtain ⟨q, hq, _, hid, _⟩ := finalSubs_viable_val s hnd c hcm hcv
      rw [hq, hid]
    rw [e]
    exact (processed_ids_perm s).symm
  · intro c hcm
    obtain ⟨c0, hc0, rfl⟩ := List.mem_map.mp hcm
    obtain ⟨hc0c, hc0v⟩ := mem_vSubsOf_cleared s hc0
    rw [if_pos hc0v]
    obtain ⟨q, hq, hqmem, _⟩ := finalSubs_viable_val s hnd c0 hc0c hc0v
    rw [hq]
    exact hqmem

lemma finalSubs_filter_notviable (s : Snapshot)
    (hnd : (s.subcaucuses.map Subcaucus.id).Nodup) :
    s.finalSubs.filter (fun c => !(decide (s.vNumber ≤ c.count)))
      = s.clearedSubs.filter (fun c => !(decide (s.vNumber ≤ c.count))) := by
  unfold finalSubs
  rw [List.filter_map]
  have hcong : s.clearedSubs.filter
      ((fun c => !(decide (s.vNumber ≤ c.count))) ∘ (fun c =>
        if s.vNumber ≤ c.count then
          (s.processedSubs.find? (fun p => p.id == c.id)).getD
            (c.setViability s.divisor)
        else c))
      = s.clearedSubs.filter (fun c => !(decide (s.vNumber ≤ c.count))) := by
    apply List.filter_congr
    intro c hc
    have hc2 := finalSubs_count_pointwise s hnd c hc
    simp only [Function.comp_apply, hc2]
  rw [hcong]
  have hid : ∀ c ∈ s.clearedSubs.filter (fun c => !(decide (s.vNumber ≤ c.count))),
      ((fun c =>
        if s.vNumber ≤ c.count then
          (s.processedSubs.find? (fun p => p.id == c.id)).getD
            (c.setViability s.divisor)
        else c) c) = id c := by
    intro c hc
    have h := List.mem_filter.mp hc
    have hnv : ¬ s.vNumber ≤ c.count := by simpa using h.2
    simp only [if_neg hnv, id]
  rw [List.map_congr_left hid, List.map_id]

lemma processed_remD_le_one (s : Snapshot) :
    ∀ q ∈ s.processedSubs, q.remainderDelegates ≤ 1 := by
  intro q hq
  unfold processedSubs at hq
  obtain ⟨q0, hq0, rfl⟩ := List.mem_map.mp hq
  rw [processed_done_eq, walkAssign_take_drop] at hq0
  simp only [markReports_remD]
  rcases List.mem_append.mp hq0 with h | h
  · obtain ⟨q1, _, rfl⟩ := List.mem_map.mp h
    simp
  · have h2 : q0 ∈ s.rankedSubs := List.drop_subset _ _ h
    rw [ranked_remD_zero s q0 h2]
    omega

lemma vParticipants_le_participants (s : Snapshot) :
    s.vParticipants ≤ s.computedParticipants := by
  unfold vParticipants computedParticipants vSubsOf viableFilter
  exact ((List.filter_sublist s.clearedSubs).map Subcaucus.count).sum_le_sum
    (fun a _ => Nat.zero_le a)

end Snapshot

/-! ## Claim C1: conservation -/

/-- C1: for every snapshot with `allowed > 0` and (computed)
`viableParticipants > 0` (and, as always, distinct TSMap ids), after
`redistributeDelegates` the aggregate `totalDelegates` equals `allowed`, the
sum of `baseDelegates + remainderDelegates` over all groups equals `allowed`
exactly, and no group holds more than one remainder seat (the walk assigns
one seat per group in ranked order and stops at `allowed`). -/
theorem redistribute_conserves_allowed (s : Snapshot)
    (hA : s.allowed ≠ 0) (hV : s.vParticipants ≠ 0)
    (hnd : (s.subcaucuses.map Subcaucus.id).Nodup) :
    s.redistributeDelegates.totalDelegates = s.allowed ∧
    (s.redistributeDelegates.subcaucuses.map
      (fun c => c.baseDelegates + c.remainderDelegates)).sum = s.allowed ∧
    ∀ c ∈ s.redistributeDelegates.subcaucuses, c.remainderDelegates ≤ 1 := by
  have hp : s.computedParticipants ≠ 0 := by
    have := s.vParticipants_le_participants
    omega
  unfold Snapshot.redistributeDelegates
  rw [if_neg hA, if_neg hp, if_neg hV]
  refine ⟨Snapshot.walkResult_total s hA hV, ?_, ?_⟩
  · show (s.finalSubs.map (fun c => c.baseDelegates + c.remainderDelegates)).sum
      = s.allowed
    rw [sum_map_filter_split s.finalSubs (fun c => decide (s.vNumber ≤ c.count))]
    have h1 : ((s.finalSubs.filter (fun c => decide (s.vNumber ≤ c.count))).map
        (fun c => c.baseDelegates + c.remainderDelegates)).sum = s.allowed := by
      rw [((Snapshot.finalSubs_filter_viable s hnd).map
        (fun c => c.baseDelegates + c.remainderDelegates)).sum_eq]
      exact Snapshot.processed_sum_total s hA hV
    have h2 : ((s.finalSubs.filter (fun c => !(decide (s.vNumber ≤ c.count)))).map
        (fun c => c.baseDelegates + c.remainderDelegates)).sum = 0 := by
      rw [Snapshot.finalSubs_filter_notviable s hnd]
      apply List.sum_eq_zero
      intro x hx
      obtain ⟨c, hc, rfl⟩ := List.mem_map.mp hx
      have hcm := (List.mem_filter.mp hc).1
      obtain ⟨hb, _, hr, _⟩ := Snapshot.mem_clearedSubs s hcm
      omega
    omega
  · show ∀ c ∈ s.finalSubs, c.remainderDelegates ≤ 1
    intro c hc
    unfold Snapshot.finalSubs at hc
    obtain ⟨c0, hc0, rfl⟩ := List.mem_map.mp hc
    split_ifs with hv
    · obtain ⟨q, hq, hqmem, _⟩ := Snapshot.finalSubs_viable_val s hnd c0 hc0 hv
      rw [hq]
      exact Snapshot.processed_remD_le_one s q hqmem
    · rw [(Snapshot.mem_clearedSubs s hc0).2.2.1]
      omega

/-- Witness for C1: the spec's concrete scenario A — `allowed = 10`, counts
`10, 0, 100, 1, 0`; only the count-100 group is viable and conservation gives
exactly 10 seats. -/
theorem redistribute_conserves_allowed_witness :
    (sampleSnap 10 7 [sampleSub 1 10, sampleSub 2 0, sampleSub 3 100,
        sampleSub 4 1, sampleSub 5 0]).redistributeDelegates.totalDelegates = 10 ∧
    ((sampleSnap 10 7 [sampleSub 1 10, sampleSub 2 0, sampleSub 3 100,
        sampleSub 4 1, sampleSub 5 0]).redistributeDelegates.subcaucuses.map
      (fun c => c.baseDelegates + c.remainderDelegates)).sum = 10 := by
  have h := redistribute_conserves_allowed
    (sampleSnap 10 7 [sampleSub 1 10, sampleSub 2 0, sampleSub 3 100,
      sampleSub 4 1, sampleSub 5 0])
    (by decide) (by with_unfolding_all decide) (by decide)
  exact ⟨h.1, h.2.1⟩

/-! ## Claim C7: no seat without viability (corrected) -/

/-- Counterexample to C7 as stated ("for every input"): a snapshot computed
with `allowed = 1` and a count-10 group (so the group carries
`baseDelegates = 1` and the snapshot `viabilityNumber = 10`), whose count is
then edited to 0 and whose `allowed` is set back to 0 (as `fromJSON` can).
Invoking `redistributeDelegates` exits before any reset, so a group with
`count = 0 < viabilityNumber = 10` still has `baseDelegates = 1 ≠ 0`. -/
theorem allowedZero_nonviable_keeps_seats :
    ({ (sampleSnap 1 5 [sampleSub 1 10]).redistributeDelegates with
        allowed := 0,
        subcaucuses := (sampleSnap 1 5 [sampleSub 1 10]).redistributeDelegates.subcaucuses.map
          (fun c : Subcaucus => { c with count := 0 })
       }.redistributeDelegates.subcaucuses.map
        (fun c : Subcaucus => (c.count, c.baseDelegates))) = [(0, 1)] ∧
    ({ (sampleSnap 1 5 [sampleSub 1 10]).redistributeDelegates with
        allowed := 0,
        subcaucuses := (sampleSnap 1 5 [sampleSub 1 10]).redistributeDelegates.subcaucuses.map
          (fun c : Subcaucus => { c with count := 0 })
       }.redistributeDelegates.viabilityNumber) = 10 := by
  refine ⟨?_, ?_⟩ <;> with_unfolding_all decide

/-- C7 as amended: for every input with `allowed ≠ 0` (and distinct ids),
after the computation every group whose count is strictly below the
resulting `viabilityNumber` has zero `baseDelegates`, zero `remainder` and
zero `remainderDelegates`.  (With `allowed = 0` the computation returns
without resetting, so stale seats survive — see the counterexample.) -/
theorem nonviable_gets_nothing (s : Snapshot) (hA : s.allowed ≠ 0)
    (hnd : (s.subcaucuses.map Subcaucus.id).Nodup) :
    ∀ c ∈ s.redistributeDelegates.subcaucuses,
      c.count < s.redistributeDelegates.viabilityNumber →
        c.baseDelegates = 0 ∧ c.remainder = 0 ∧ c.remainderDelegates = 0 := by
  intro c hc hlt
  unfold Snapshot.redistributeDelegates at hc hlt
  by_cases h2 : s.computedParticipants = 0
  · rw [if_neg hA, if_pos h2] at hc
    obtain ⟨hb, hr, hd, _⟩ := Snapshot.mem_clearedSubs s hc
    exact ⟨hb, hr, hd⟩
  · by_cases h3 : s.vParticipants = 0
    · rw [if_neg hA, if_neg h2, if_pos h3] at hc
      obtain ⟨hb, hr, hd, _⟩ := Snapshot.mem_clearedSubs s hc
      exact ⟨hb, hr, hd⟩
    · rw [if_neg hA, if_neg h2, if_neg h3] at hc hlt
      dsimp only at hc hlt
      unfold Snapshot.finalSubs at hc
      obtain ⟨c0, hc0, rfl⟩ := List.mem_map.mp hc
      split_ifs at hlt ⊢ with hv
      · obtain ⟨q, hq, _, _, _, hcount, _⟩ :=
          Snapshot.finalSubs_viable_val s hnd c0 hc0 hv
        rw [hq, hcount] at hlt
        exact absurd hlt (Nat.not_lt.mpr hv)
      · obtain ⟨hb, hr, hd, _⟩ := Snapshot.mem_clearedSubs s hc0
        exact ⟨hb, hr, hd⟩

/-- Witness for C7 (amended): spec scenario A; the count-1 group is below the
viability number 12 and receives nothing. -/
theorem nonviable_gets_nothing_witness :
    ((sampleSnap 10 7 [sampleSub 1 10, sampleSub 2 0, sampleSub 3 100,
        sampleSub 4 1, sampleSub 5 0]).redistributeDelegates.subcaucuses.all
      (fun c => !decide (c.count < 12) || decide (c.baseDelegates = 0))) = true := by
  have h := nonviable_gets_nothing
    (sampleSnap 10 7 [sampleSub 1 10, sampleSub 2 0, sampleSub 3 100,
      sampleSub 4 1, sampleSub 5 0]) (by decide) (by decide)
  rw [List.all_eq_true]
  intro c hc
  have hvn : (sampleSnap 10 7 [sampleSub 1 10, sampleSub 2 0, sampleSub 3 100,
      sampleSub 4 1, sampleSub 5 0]).redistributeDelegates.viabilityNumber = 12 := by
    with_unfolding_all decide
  by_cases hlt : c.count < 12
  · have hz := h c hc (by rw [hvn]; exact hlt)
    simp [hz.1]
  · simp [hlt]

/-! ## Claim C8: viability threshold and quota (corrected) -/

/-- Counterexample to C8 as stated: a snapshot first computed with
`allowed = 1` and a single count-10 group (`delegateDivisor` becomes 10),
then given a second count-10 group.  On recomputation `allowed = 1 > 0` and
participants `= 20 > 0`, but the new viability number is 20, no group is
viable, and the computation returns before touching `delegateDivisor` —
which keeps its stale value 10 instead of `viableParticipants / allowed
= 0 / 1 = 0`. -/
theorem delegateDivisor_stale_when_no_viable :
    (({ (sampleSnap 1 5 [sampleSub 1 10]).redistributeDelegates with
        subcaucuses := (sampleSnap 1 5 [sampleSub 1 10]).redistributeDelegates.subcaucuses
          ++ [sampleSub 2 10] }).redistributeDelegates.delegateDivisor = 10 ∧
    ({ (sampleSnap 1 5 [sampleSub 1 10]).redistributeDelegates with
        subcaucuses := (sampleSnap 1 5 [sampleSub 1 10]).redistributeDelegates.subcaucuses
          ++ [sampleSub 2 10] }).redistributeDelegates.allowed = 1 ∧
    ({ (sampleSnap 1 5 [sampleSub 1 10]).redistributeDelegates with
        subcaucuses := (sampleSnap 1 5 [sampleSub 1 10]).redistributeDelegates.subcaucuses
          ++ [sampleSub 2 10] }).redistributeDelegates.participants = 20 ∧
    ({ (sampleSnap 1 5 [sampleSub 1 10]).redistributeDelegates with
        subcaucuses := (sampleSnap 1 5 [sampleSub 1 10]).redistributeDelegates.subcaucuses
          ++ [sampleSub 2 10] }).redistributeDelegates.viableParticipants = 0) ∧
    (10 : ℚ) ≠ (0 : ℚ) / (1 : ℚ) := by
  refine ⟨⟨?_, ?_, ?_, ?_⟩, ?_⟩ <;> with_unfolding_all decide

/-- C8 as amended: for every input with `allowed ≠ 0` and nonzero computed
participants (and distinct ids), the computation sets
`viabilityNumber = ⌈participants / allowed⌉` with real division then
ceiling; and — provided additionally that the viable participant total is
nonzero, since otherwise the computation exits early and `delegateDivisor`
keeps its previous value — it sets `delegateDivisor = viableParticipants /
allowed` as an exact rational and gives each viable group
`baseDelegates = ⌊count / delegateDivisor⌋` with `remainder` the fractional
part, a value in `[0, 1)`. -/
theorem viability_and_quota_formulas (s : Snapshot) (hA : s.allowed ≠ 0)
    (hp : s.computedParticipants ≠ 0)
    (hnd : (s.subcaucuses.map Subcaucus.id).Nodup) :
    s.redistributeDelegates.viabilityNumber
      = (Int.ceil ((s.computedParticipants : ℚ) / (s.allowed : ℚ))).toNat ∧
    (s.vParticipants ≠ 0 →
      s.redistributeDelegates.delegateDivisor
        = (s.vParticipants : ℚ) / (s.allowed : ℚ) ∧
      ∀ c ∈ s.redistributeDelegates.subcaucuses,
        s.redistributeDelegates.viabilityNumber ≤ c.count →
          c.baseDelegates = (Int.floor ((c.count : ℚ)
            / s.redistributeDelegates.delegateDivisor)).toNat ∧
          c.remainder = Int.fract ((c.count : ℚ)
            / s.redistributeDelegates.delegateDivisor) ∧
          0 ≤ c.remainder ∧ c.remainder < 1) := by
  constructor
  · unfold Snapshot.redistributeDelegates
    rw [if_neg hA, if_neg hp]
    by_cases h3 : s.vParticipants = 0
    · rw [if_pos h3]
      rfl
    · rw [if_neg h3]
      rfl
  · intro hV
    have hbr : s.redistributeDelegates
        = { s with subcaucuses := s.finalSubs,
                   participants := s.computedParticipants,
                   participantsPerDelegate := s.pPerD,
                   viabilityNumber := s.vNumber,
                   viableParticipants := s.vParticipants,
                   delegateDivisor := s.divisor,
                   totalDelegates := s.walkResult.totalDelegates } := by
      unfold Snapshot.redistributeDelegates
      rw [if_neg hA, if_neg hp, if_neg hV]
    refine ⟨by rw [hbr]; rfl, ?_⟩
    intro c hc hvc
    rw [hbr] at hc hvc ⊢
    dsimp only at hc hvc ⊢
    unfold Snapshot.finalSubs at hc
    obtain ⟨c0, hc0, rfl⟩ := List.mem_map.mp hc
    split_ifs at hvc ⊢ with hv
    · obtain ⟨q, hq, _, _, _, hcount, hbase, hrem⟩ :=
        Snapshot.finalSubs_viable_val s hnd c0 hc0 hv
      rw [hq, hcount, hbase, hrem, Subcaucus.setV_base, Subcaucus.setV_rem]
      refine ⟨rfl, rfl, Int.fract_nonneg _, Int.fract_lt_one _⟩
    · exact absurd hvc hv

/-- Witness for C8 (amended): spec scenario C — `allowed = 2`, counts 6 and
4 — where only the count-6 group is viable and the divisor is 6 / 2 = 3. -/
theorem viability_and_quota_formulas_witness :
    (sampleSnap 2 3 [sampleSub 1 6, sampleSub 2 4]).redistributeDelegates.delegateDivisor
      = (6 : ℚ) / (2 : ℚ) := by
  have h := viability_and_quota_formulas
    (sampleSnap 2 3 [sampleSub 1 6, sampleSub 2 4])
    (by decide) (by with_unfolding_all decide) (by decide)
  have h2 := (h.2 (by with_unfolding_all decide)).1
  rw [h2, show (sampleSnap 2 3 [sampleSub 1 6, sampleSub 2 4]).vParticipants = 6 from by
    with_unfolding_all decide,
    show (sampleSnap 2 3 [sampleSub 1 6, sampleSub 2 4]).allowed = 2 from rfl]
  norm_num

/-! ## Stability of the cleared state under recomputation (towards C9) -/

/-- Clearing is idempotent on a whole list. -/
lemma map_clear_idem (l : List Subcaucus) :
    (l.map Subcaucus.clearDelegateInfo).map Subcaucus.clearDelegateInfo
      = l.map Subcaucus.clearDelegateInfo := by
  rw [List.map_map]
  apply List.map_congr_left
  intro c _
  exact Subcaucus.clear_clear c

/-- Clearing the written-back list recovers the cleared list: the write-back
preserves each group's id, name and count. -/
lemma Snapshot.finalSubs_map_clear (s : Snapshot)
    (hnd : (s.subcaucuses.map Subcaucus.id).Nodup) :
    s.finalSubs.map Subcaucus.clearDelegateInfo = s.clearedSubs := by
  unfold Snapshot.finalSubs
  rw [List.map_map]
  have h : ∀ c0 ∈ s.clearedSubs,
      (Subcaucus.clearDelegateInfo ∘ fun c =>
        if s.vNumber ≤ c.count then
          (s.processedSubs.find? (fun p => p.id == c.id)).getD (c.setViability s.divisor)
        else c) c0 = c0 := by
    intro c0 hc0
    have hcc : c0.clearDelegateInfo = c0 := by
      unfold Snapshot.clearedSubs at hc0
      obtain ⟨d, _, rfl⟩ := List.mem_map.mp hc0
      exact Subcaucus.clear_clear d
    simp only [Function.comp_apply]
    split_ifs with hv
    · obtain ⟨q, hq, _, hid, hname, hcount, _⟩ :=
        Snapshot.finalSubs_viable_val s hnd c0 hc0 hv
      rw [hq, Subcaucus.clear_eq_of_core q c0 hid hname hcount, hcc]
    · exact hcc
  rw [List.map_congr_left h]
  exact List.map_id s.clearedSubs

/-- The four branch equations of `redistributeDelegates`, for rewriting a
nested invocation. -/
lemma Snapshot.redistribute_eq_zero (t : Snapshot) (h1 : t.allowed = 0) :
    t.redistributeDelegates = t := by
  unfold Snapshot.redistributeDelegates
  rw [if_pos h1]

lemma Snapshot.redistribute_eq_noPart (t : Snapshot) (h1 : t.allowed ≠ 0)
    (h2 : t.computedParticipants = 0) :
    t.redistributeDelegates
      = { t with subcaucuses := t.clearedSubs, participants := 0 } := by
  unfold Snapshot.redistributeDelegates
  rw [if_neg h1, if_pos h2]

lemma Snapshot.redistribute_eq_noViable (t : Snapshot) (h1 : t.allowed ≠ 0)
    (h2 : t.computedParticipants ≠ 0) (h3 : t.vParticipants = 0) :
    t.redistributeDelegates
      = { t with subcaucuses := t.clearedSubs,
                 participants := t.computedParticipants,
                 participantsPerDelegate := t.pPerD,
                 viabilityNumber := t.vNumber,
                 viableParticipants := 0 } := by
  unfold Snapshot.redistributeDelegates
  rw [if_neg h1, if_neg h2, if_pos h3]

lemma Snapshot.redistribute_eq_full (t : Snapshot) (h1 : t.allowed ≠ 0)
    (h2 : t.computedParticipants ≠ 0) (h3 : t.vParticipants ≠ 0) :
    t.redistributeDelegates
      = { t with subcaucuses := t.finalSubs,
                 participants := t.computedParticipants,
                 participantsPerDelegate := t.pPerD,
                 viabilityNumber := t.vNumber,
                 viableParticipants := t.vParticipants,
                 delegateDivisor := t.divisor,
                 totalDelegates := t.walkResult.totalDelegates } := by
  unfold Snapshot.redistributeDelegates
  rw [if_neg h1, if_neg h2, if_neg h3]

/-- Every derived quantity of the pipeline is a function of `allowed`, `seed`
and the cleared subcaucus list only, so recomputation sees the same values. -/
lemma Snapshot.clearedSubs_redistribute (s : Snapshot)
    (hnd : (s.subcaucuses.map Subcaucus.id).Nodup) :
    s.redistributeDelegates.clearedSubs = s.clearedSubs := by
  unfold Snapshot.redistributeDelegates
  split_ifs with h1 h2 h3
  · rfl
  · exact map_clear_idem s.subcaucuses
  · exact map_clear_idem s.subcaucuses
  · exact Snapshot.finalSubs_map_clear s hnd

lemma Snapshot.redistribute_computedParticipants (s : Snapshot)
    (hnd : (s.subcaucuses.map Subcaucus.id).Nodup) :
    s.redistributeDelegates.computedParticipants = s.computedParticipants := by
  unfold Snapshot.computedParticipants
  rw [Snapshot.clearedSubs_redistribute s hnd]

lemma Snapshot.redistribute_pPerD (s : Snapshot)
    (hnd : (s.subcaucuses.map Subcaucus.id).Nodup) :
    s.redistributeDelegates.pPerD = s.pPerD := by
  unfold Snapshot.pPerD
  rw [Snapshot.redistribute_computedParticipants s hnd, Snapshot.redistribute_allowed]

lemma Snapshot.redistribute_vNumber (s : Snapshot)
    (hnd : (s.subcaucuses.map Subcaucus.id).Nodup) :
    s.redistributeDelegates.vNumber = s.vNumber := by
  unfold Snapshot.vNumber
  rw [Snapshot.redistribute_pPerD s hnd]

lemma Snapshot.redistribute_vSubsOf (s : Snapshot)
    (hnd : (s.subcaucuses.map Subcaucus.id).Nodup) :
    s.redistributeDelegates.vSubsOf = s.vSubsOf := by
  unfold Snapshot.vSubsOf
  rw [Snapshot.redistribute_vNumber s hnd, Snapshot.clearedSubs_redistribute s hnd]

lemma Snapshot.redistribute_vParticipants (s : Snapshot)
    (hnd : (s.subcaucuses.map Subcaucus.id).Nodup) :
    s.redistributeDelegates.vParticipants = s.vParticipants := by
  unfold Snapshot.vParticipants
  rw [Snapshot.redistribute_vSubsOf s hnd]

lemma Snapshot.redistribute_divisor (s : Snapshot)
    (hnd : (s.subcaucuses.map Subcaucus.id).Nodup) :
    s.redistributeDelegates.divisor = s.divisor := by
  unfold Snapshot.divisor
  rw [Snapshot.redistribute_vParticipants s hnd, Snapshot.redistribute_allowed]

lemma Snapshot.redistribute_vSubsV (s : Snapshot)
    (hnd : (s.subcaucuses.map Subcaucus.id).Nodup) :
    s.redistributeDelegates.vSubsV = s.vSubsV := by
  unfold Snapshot.vSubsV
  rw [Snapshot.redistribute_vSubsOf s hnd, Snapshot.redistribute_divisor s hnd]

lemma Snapshot.redistribute_baseTotal (s : Snapshot)
    (hnd : (s.subcaucuses.map Subcaucus.id).Nodup) :
    s.redistributeDelegates.baseTotal = s.baseTotal := by
  unfold Snapshot.baseTotal
  rw [Snapshot.redistribute_vSubsV s hnd]

lemma Snapshot.redistribute_ranks (s : Snapshot)
    (hnd : (s.subcaucuses.map Subcaucus.id).Nodup) :
    s.redistributeDelegates.ranks = s.ranks := by
  unfold Snapshot.ranks
  rw [Snapshot.redistribute_vSubsV s hnd, Snapshot.redistribute_seed]

lemma Snapshot.redistribute_rankedSubs (s : Snapshot)
    (hnd : (s.subcaucuses.map Subcaucus.id).Nodup) :
    s.redistributeDelegates.rankedSubs = s.rankedSubs := by
  unfold Snapshot.rankedSubs
  rw [Snapshot.redistribute_ranks s hnd, Snapshot.redistribute_vSubsV s hnd]

lemma Snapshot.redistribute_walkResult (s : Snapshot)
    (hnd : (s.subcaucuses.map Subcaucus.id).Nodup) :
    s.redistributeDelegates.walkResult = s.walkResult := by
  unfold Snapshot.walkResult
  rw [Snapshot.redistribute_rankedSubs s hnd, Snapshot.redistribute_allowed,
    Snapshot.redistribute_baseTotal s hnd]

lemma Snapshot.redistribute_processedSubs (s : Snapshot)
    (hnd : (s.subcaucuses.map Subcaucus.id).Nodup) :
    s.redistributeDelegates.processedSubs = s.processedSubs := by
  unfold Snapshot.processedSubs
  rw [Snapshot.redistribute_walkResult s hnd]

lemma Snapshot.redistribute_finalSubs (s : Snapshot)
    (hnd : (s.subcaucuses.map Subcaucus.id).Nodup) :
    s.redistributeDelegates.finalSubs = s.finalSubs := by
  unfold Snapshot.finalSubs
  rw [Snapshot.clearedSubs_redistribute s hnd, Snapshot.redistribute_vNumber s hnd,
    Snapshot.redistribute_processedSubs s hnd, Snapshot.redistribute_divisor s hnd]

/-! ## Claim C9: idempotence -/

/-- C9: `redistributeDelegates` is idempotent — a second invocation on the
result of a first, with no intervening mutation, reproduces the result
exactly, including every per-group field and toss-log entry.  (Ids are
assumed distinct, as TSMap keys are.) -/
theorem redistribute_idempotent (s : Snapshot)
    (hnd : (s.subcaucuses.map Subcaucus.id).Nodup) :
    s.redistributeDelegates.redistributeDelegates = s.redistributeDelegates := by
  by_cases h1 : s.allowed = 0
  · rw [Snapshot.redistribute_eq_zero s h1, Snapshot.redistribute_eq_zero s h1]
  · by_cases h2 : s.computedParticipants = 0
    · have e2 := Snapshot.redistribute_eq_noPart s.redistributeDelegates
        (by rw [Snapshot.redistribute_allowed]; exact h1)
        (by rw [Snapshot.redistribute_computedParticipants s hnd]; exact h2)
      rw [e2, Snapshot.clearedSubs_redistribute s hnd,
        Snapshot.redistribute_eq_noPart s h1 h2]
    · by_cases h3 : s.vParticipants = 0
      · have e2 := Snapshot.redistribute_eq_noViable s.redistributeDelegates
          (by rw [Snapshot.redistribute_allowed]; exact h1)
          (by rw [Snapshot.redistribute_computedParticipants s hnd]; exact h2)
          (by rw [Snapshot.redistribute_vParticipants s hnd]; exact h3)
        rw [e2, Snapshot.clearedSubs_redistribute s hnd,
          Snapshot.redistribute_computedParticipants s hnd,
          Snapshot.redistribute_pPerD s hnd, Snapshot.redistribute_vNumber s hnd,
          Snapshot.redistribute_eq_noViable s h1 h2 h3]
      · have e2 := Snapshot.redistribute_eq_full s.redistributeDelegates
          (by rw [Snapshot.redistribute_allowed]; exact h1)
          (by rw [Snapshot.redistribute_computedParticipants s hnd]; exact h2)
          (by rw [Snapshot.redistribute_vParticipants s hnd]; exact h3)
        rw [e2, Snapshot.redistribute_finalSubs s hnd,
          Snapshot.redistribute_computedParticipants s hnd,
          Snapshot.redistribute_pPerD s hnd, Snapshot.redistribute_vNumber s hnd,
          Snapshot.redistribute_vParticipants s hnd,
          Snapshot.redistribute_divisor s hnd,
          Snapshot.redistribute_walkResult s hnd,
          Snapshot.redistribute_eq_full s h1 h2 h3]

/-- Witness for C9: a concrete two-group snapshot. -/
theorem redistribute_idempotent_witness :
    (sampleSnap 3 1 [sampleSub 1 5, sampleSub 2 3]).redistributeDelegates.redistributeDelegates
      = (sampleSnap 3 1 [sampleSub 1 5, sampleSub 2 3]).redistributeDelegates :=
  redistribute_idempotent (sampleSnap 3 1 [sampleSub 1 5, sampleSub 2 3]) (by decide)

/-! ## Claim C5: the seeded pre-ranking breaks exact remainder ties -/

lemma Snapshot.ranked_ids_perm (s : Snapshot) :
    (s.rankedSubs.map Subcaucus.id).Perm (s.vSubsOf.map Subcaucus.id) := by
  have h := (Snapshot.ranked_map_dproj_perm s).map
    (fun t : Nat × String × Nat × Nat × ℚ => t.1)
  rw [List.map_map, List.map_map] at h
  have e1 : s.rankedSubs.map ((fun t : Nat × String × Nat × Nat × ℚ => t.1) ∘ dproj)
      = s.rankedSubs.map Subcaucus.id := rfl
  have e2 : s.vSubsV.map ((fun t : Nat × String × Nat × Nat × ℚ => t.1) ∘ dproj)
      = s.vSubsV.map Subcaucus.id := rfl
  rw [e1, e2, Snapshot.vSubsV_ids] at h
  exact h

lemma Snapshot.ranked_ids_nodup (s : Snapshot)
    (hnd : (s.subcaucuses.map Subcaucus.id).Nodup) :
    (s.rankedSubs.map Subcaucus.id).Nodup :=
  (Snapshot.ranked_ids_perm s).nodup_iff.mpr (Snapshot.vSubsOf_ids_nodup s hnd)

lemma Snapshot.mem_ranks_of_mem_ranked (s : Snapshot) {c : Subcaucus}
    (hc : c ∈ s.rankedSubs) : c.id ∈ s.ranks := by
  have h1 : c.id ∈ s.rankedSubs.map Subcaucus.id := List.mem_map_of_mem Subcaucus.id hc
  have h2 := (Snapshot.ranked_ids_perm s).mem_iff.mp h1
  have h3 : c.id ∈ s.vSubsV.map Subcaucus.id := by
    rw [Snapshot.vSubsV_ids]
    exact h2
  exact (shuffledRanks_perm s.seed (s.vSubsV.map Subcaucus.id)).mem_iff.mpr h3

/-- C5: the pre-ranking is exactly the seeded Fisher-Yates shuffle of the
viable group ids (`i = next_below(m)` for `m` from the length down to 1),
computed once per pass and independent of how many ties occur; it is a
permutation of the viable ids; and in the remainder-ranked list any two
groups appear in strictly decreasing remainder order except that exact ties
are ordered by strictly earlier pre-ranking position — never by insertion
order or identifier. -/
theorem tiebreak_by_seeded_preranking (s : Snapshot)
    (hnd : (s.subcaucuses.map Subcaucus.id).Nodup) :
    s.ranks = shuffledRanks s.seed (s.vSubsV.map Subcaucus.id) ∧
    s.ranks.Perm (s.vSubsV.map Subcaucus.id) ∧
    s.rankedSubs.Pairwise (fun a b =>
      b.remainder < a.remainder ∨
        (b.remainder = a.remainder ∧ rankIdx s.ranks a < rankIdx s.ranks b)) := by
  refine ⟨rfl, shuffledRanks_perm s.seed (s.vSubsV.map Subcaucus.id), ?_⟩
  have hsorted : s.rankedSubs.Pairwise (remOrder s.ranks) :=
    List.sorted_insertionSort (remOrder s.ranks)
      (s.vSubsV.map (logTosses s.ranks s.vSubsV))
  have hids : s.rankedSubs.Pairwise (fun a b => a.id ≠ b.id) :=
    List.pairwise_map.mp (Snapshot.ranked_ids_nodup s hnd)
  have hmem : ∀ a ∈ s.rankedSubs, a.id ∈ s.ranks :=
    fun a ha => Snapshot.mem_ranks_of_mem_ranked s ha
  refine List.Pairwise.imp_of_mem ?_ (hsorted.and hids)
  intro a b ha hb hab
  rcases hab with ⟨hro, hne⟩
  rcases hro with h | ⟨heq, hle⟩
  · exact Or.inl h
  · refine Or.inr ⟨heq, lt_of_le_of_ne hle ?_⟩
    intro hEq
    exact hne ((List.indexOf_inj (hmem a ha) (hmem b hb)).mp hEq)

/-- Witness for C5: a three-group snapshot with an exact remainder tie
between the two count-5 groups. -/
theorem tiebreak_by_seeded_preranking_witness :
    (sampleSnap 3 1 [sampleSub 1 5, sampleSub 2 5, sampleSub 3 2]).ranks.Perm
      ((sampleSnap 3 1 [sampleSub 1 5, sampleSub 2 5,
        sampleSub 3 2]).vSubsV.map Subcaucus.id) :=
  (tiebreak_by_seeded_preranking
    (sampleSnap 3 1 [sampleSub 1 5, sampleSub 2 5, sampleSub 3 2]) (by decide)).2.1

/-! ## Claim C2: determinism (corrected)

The computation is *not* insensitive to group insertion order: the pre-ranking
shuffles the viable id list as ordered, so permuting the groups permutes the
shuffle input and can change every remainder tie-break.  What does hold is
that the result is a function of `allowed`, `seed` and the *ordered* sequence
of `(id, count)` pairs alone — names, stale delegate state and stale
aggregates are immaterial.  We prove that by showing every pipeline stage
invariant under the name-erasing projection below. -/

/-- Proof device for C2: forget a subcaucus's display name (the one field the
computation carries along but never reads). -/
def eraseName (c : Subcaucus) : Subcaucus := { c with name := "" }

@[simp] lemma erase_id (c : Subcaucus) : (eraseName c).id = c.id := rfl
@[simp] lemma erase_count (c : Subcaucus) : (eraseName c).count = c.count := rfl
@[simp] lemma erase_base (c : Subcaucus) :
    (eraseName c).baseDelegates = c.baseDelegates := rfl
@[simp] lemma erase_rem (c : Subcaucus) : (eraseName c).remainder = c.remainder := rfl
@[simp] lemma erase_remD (c : Subcaucus) :
    (eraseName c).remainderDelegates = c.remainderDelegates := rfl
@[simp] lemma erase_rT (c : Subcaucus) :
    (eraseName c).reportTosses = c.reportTosses := rfl
@[simp] lemma erase_tossLog (c : Subcaucus) : (eraseName c).tossLog = c.tossLog := rfl

lemma erase_markReports (r : List Nat) (c : Subcaucus) :
    eraseName (markReports r c) = markReports r (eraseName c) := by
  unfold markReports
  by_cases h : c.id ∈ r
  · rw [if_pos h, if_pos (show (eraseName c).id ∈ r from h)]
    rfl
  · rw [if_neg h, if_neg (show (eraseName c).id ∉ r from h)]

/-- The toss log written by the comparator depends only on the name-erased
pool and the name-erased subject. -/
lemma logTosses_erase_congr (r : List Nat) (p₁ p₂ : List Subcaucus)
    (hp : p₁.map eraseName = p₂.map eraseName) (c₁ c₂ : Subcaucus)
    (hc : eraseName c₁ = eraseName c₂) :
    eraseName (logTosses r p₁ c₁) = eraseName (logTosses r p₂ c₂) := by
  have hid : c₁.id = c₂.id := by
    have h' := congrArg Subcaucus.id hc
    exact h'
  have hcount : c₁.count = c₂.count := by
    have h' := congrArg Subcaucus.count hc
    exact h'
  have hbase : c₁.baseDelegates = c₂.baseDelegates := by
    have h' := congrArg Subcaucus.baseDelegates hc
    exact h'
  have hrem : c₁.remainder = c₂.remainder := by
    have h' := congrArg Subcaucus.remainder hc
    exact h'
  have hremD : c₁.remainderDelegates = c₂.remainderDelegates := by
    have h' := congrArg Subcaucus.remainderDelegates hc
    exact h'
  have hrT : c₁.reportTosses = c₂.reportTosses := by
    have h' := congrArg Subcaucus.reportTosses hc
    exact h'
  have key : ∀ (p : List Subcaucus) (c : Subcaucus),
      (p.filter (fun d => d.id ≠ c.id ∧ d.remainder = c.remainder)).map
        (fun d => (d.id, decide (rankIdx r c < rankIdx r d)))
      = ((p.map eraseName).filter
          (fun d => d.id ≠ c.id ∧ d.remainder = c.remainder)).map
        (fun d => (d.id, decide (rankIdx r c < rankIdx r d))) := by
    intro p c
    rw [List.filter_map, List.map_map]
    rfl
  have htied : (p₁.filter (fun d => d.id ≠ c₁.id ∧ d.remainder = c₁.remainder)).map
        (fun d => (d.id, decide (rankIdx r c₁ < rankIdx r d)))
      = (p₂.filter (fun d => d.id ≠ c₂.id ∧ d.remainder = c₂.remainder)).map
        (fun d => (d.id, decide (rankIdx r c₂ < rankIdx r d))) := by
    rw [key p₁ c₁, hp, hid, hrem, show rankIdx r c₁ = rankIdx r c₂ from by
      unfold rankIdx; rw [hid], ← key p₂ c₂]
  simp only [logTosses, eraseName, Subcaucus.mk.injEq]
  exact ⟨hid, trivial, hcount, hbase, hrem, hremD, hrT, htied⟩

lemma logTosses_erase (r : List Nat) (P : List Subcaucus) (c : Subcaucus) :
    eraseName (logTosses r P c)
      = eraseName (logTosses r (P.map eraseName) (eraseName c)) :=
  logTosses_erase_congr r P (P.map eraseName)
    (by rw [List.map_map]; rfl) c (eraseName c) rfl

/-- Stage congruences for C2: two snapshots with the same `allowed`, the same
`seed` and name-erased-equal cleared lists agree at every pipeline stage. -/
lemma c2_computedParticipants (s t : Snapshot)
    (hc : s.clearedSubs.map eraseName = t.clearedSubs.map eraseName) :
    s.computedParticipants = t.computedParticipants := by
  have key : ∀ l : List Subcaucus,
      ((l.map eraseName).map Subcaucus.count).sum = (l.map Subcaucus.count).sum := by
    intro l
    rw [List.map_map]
    rfl
  unfold Snapshot.computedParticipants
  rw [← key s.clearedSubs, hc, key t.clearedSubs]

lemma c2_vNumber (s t : Snapshot) (hA : s.allowed = t.allowed)
    (hc : s.clearedSubs.map eraseName = t.clearedSubs.map eraseName) :
    s.vNumber = t.vNumber := by
  unfold Snapshot.vNumber Snapshot.pPerD
  rw [c2_computedParticipants s t hc, hA]

lemma c2_vSubsOf (s t : Snapshot) (hA : s.allowed = t.allowed)
    (hc : s.clearedSubs.map eraseName = t.clearedSubs.map eraseName) :
    s.vSubsOf.map eraseName = t.vSubsOf.map eraseName := by
  unfold Snapshot.vSubsOf Snapshot.viableFilter
  have key : ∀ (vn : Nat) (l : List Subcaucus),
      (l.filter (fun c => vn ≤ c.count)).map eraseName
        = (l.map eraseName).filter (fun c => vn ≤ c.count) := by
    intro vn l
    rw [List.filter_map]
    rfl
  rw [key, hc, c2_vNumber s t hA hc, ← key]

lemma c2_vParticipants (s t : Snapshot) (hA : s.allowed = t.allowed)
    (hc : s.clearedSubs.map eraseName = t.clearedSubs.map eraseName) :
    s.vParticipants = t.vParticipants := by
  have key : ∀ l : List Subcaucus,
      ((l.map eraseName).map Subcaucus.count).sum = (l.map Subcaucus.count).sum := by
    intro l
    rw [List.map_map]
    rfl
  unfold Snapshot.vParticipants
  rw [← key s.vSubsOf, c2_vSubsOf s t hA hc, key t.vSubsOf]

lemma c2_divisor (s t : Snapshot) (hA : s.allowed = t.allowed)
    (hc : s.clearedSubs.map eraseName = t.clearedSubs.map eraseName) :
    s.divisor = t.divisor := by
  unfold Snapshot.divisor
  rw [c2_vParticipants s t hA hc, hA]

lemma c2_vSubsV (s t : Snapshot) (hA : s.allowed = t.allowed)
    (hc : s.clearedSubs.map eraseName = t.clearedSubs.map eraseName) :
    s.vSubsV.map eraseName = t.vSubsV.map eraseName := by
  unfold Snapshot.vSubsV
  have key : ∀ (d : ℚ) (l : List Subcaucus),
      (l.map (fun c => c.setViability d)).map eraseName
        = (l.map eraseName).map (fun c => c.setViability d) := by
    intro d l
    rw [List.map_map, List.map_map]
    rfl
  rw [key, c2_vSubsOf s t hA hc, c2_divisor s t hA hc, ← key]

lemma c2_ranks (s t : Snapshot) (hA : s.allowed = t.allowed)
    (hs : s.seed = t.seed)
    (hc : s.clearedSubs.map eraseName = t.clearedSubs.map eraseName) :
    s.ranks = t.ranks := by
  have key : ∀ l : List Subcaucus,
      (l.map eraseName).map Subcaucus.id = l.map Subcaucus.id := by
    intro l
    rw [List.map_map]
    rfl
  unfold Snapshot.ranks
  rw [hs, ← key s.vSubsV, c2_vSubsV s t hA hc, key t.vSubsV]

lemma c2_baseTotal (s t : Snapshot) (hA : s.allowed = t.allowed)
    (hc : s.clearedSubs.map eraseName = t.clearedSubs.map eraseName) :
    s.baseTotal = t.baseTotal := by
  have key : ∀ l : List Subcaucus,
      ((l.map eraseName).map Subcaucus.baseDelegates).sum
        = (l.map Subcaucus.baseDelegates).sum := by
    intro l
    rw [List.map_map]
    rfl
  unfold Snapshot.baseTotal
  rw [← key s.vSubsV, c2_vSubsV s t hA hc, key t.vSubsV]

lemma c2_rankedSubs (s t : Snapshot) (hA : s.allowed = t.allowed)
    (hs : s.seed = t.seed)
    (hc : s.clearedSubs.map eraseName = t.clearedSubs.map eraseName) :
    s.rankedSubs.map eraseName = t.rankedSubs.map eraseName := by
  have keyL : ∀ (r : List Nat) (P : List Subcaucus),
      (P.map (logTosses r P)).map eraseName
        = (P.map eraseName).map
            (fun c => eraseName (logTosses r (P.map eraseName) c)) := by
    intro r P
    rw [List.map_map, List.map_map]
    apply List.map_congr_left
    intro c _
    exact logTosses_erase r P c
  have keyS : ∀ (r : List Nat) (l : List Subcaucus),
      (List.insertionSort (remOrder r) l).map eraseName
        = List.insertionSort (remOrder r) (l.map eraseName) :=
    fun r l => List.map_insertionSort (remOrder r) (remOrder r) eraseName l
      (fun _ _ _ _ => Iff.rfl)
  unfold Snapshot.rankedSubs
  rw [keyS, keyL, c2_vSubsV s t hA hc, c2_ranks s t hA hs hc, ← keyL, ← keyS]

/-- Proof device for C2: forget the names inside a walk state. -/
def eraseW (w : WalkState) : WalkState := { w with done := w.done.map eraseName }

@[simp] lemma eraseW_total (w : WalkState) :
    (eraseW w).totalDelegates = w.totalDelegates := rfl
@[simp] lemma eraseW_rem (w : WalkState) : (eraseW w).remainder = w.remainder := rfl
@[simp] lemma eraseW_reporting (w : WalkState) :
    (eraseW w).reportingTo = w.reportingTo := rfl
@[simp] lemma eraseW_justAdded (w : WalkState) :
    (eraseW w).justAdded = w.justAdded := rfl
@[simp] lemma eraseW_done (w : WalkState) :
    (eraseW w).done = w.done.map eraseName := rfl

lemma walkStep_erase (A : Nat) (w : WalkState) (c : Subcaucus) :
    walkStep A (eraseW w) (eraseName c) = eraseW (walkStep A w c) := by
  unfold walkStep
  by_cases h1 : w.totalDelegates < A
  · rw [if_pos (show (eraseW w).totalDelegates < A from h1), if_pos h1]
    simp only [eraseW, eraseW_total, eraseW_rem, eraseW_reporting, eraseW_done,
      erase_rem, erase_id, List.map_append]
    by_cases h2 : w.remainder ≠ c.remainder
    · rw [if_pos h2]
      rfl
    · rw [if_neg h2]
      rfl
  · rw [if_neg (show ¬ (eraseW w).totalDelegates < A from h1), if_neg h1]
    by_cases h2 : w.remainder = c.remainder
    · rw [if_pos (show (eraseW w).remainder = (eraseName c).remainder from h2), if_pos h2]
      simp only [eraseW, List.map_append]
      rfl
    · rw [if_neg (show ¬ (eraseW w).remainder = (eraseName c).remainder from h2), if_neg h2]
      simp only [eraseW, List.map_append]
      rfl

lemma walk_foldl_erase (A : Nat) (l : List Subcaucus) (w : WalkState) :
    (l.map eraseName).foldl (walkStep A) (eraseW w)
      = eraseW (l.foldl (walkStep A) w) := by
  induction l generalizing w with
  | nil => rfl
  | cons a l ih =>
    rw [List.map_cons, List.foldl_cons, List.foldl_cons, walkStep_erase, ih]

lemma c2_walkResult (s t : Snapshot) (hA : s.allowed = t.allowed)
    (hs : s.seed = t.seed)
    (hc : s.clearedSubs.map eraseName = t.clearedSubs.map eraseName) :
    eraseW s.walkResult = eraseW t.walkResult := by
  have h1 : eraseW s.walkResult
      = (s.rankedSubs.map eraseName).foldl (walkStep s.allowed) (walkInit s.baseTotal) := by
    unfold Snapshot.walkResult
    rw [← walk_foldl_erase s.allowed s.rankedSubs (walkInit s.baseTotal)]
    rfl
  have h2 : eraseW t.walkResult
      = (t.rankedSubs.map eraseName).foldl (walkStep t.allowed) (walkInit t.baseTotal) := by
    unfold Snapshot.walkResult
    rw [← walk_foldl_erase t.allowed t.rankedSubs (walkInit t.baseTotal)]
    rfl
  rw [h1, h2, c2_rankedSubs s t hA hs hc, hA, c2_baseTotal s t hA hc]

lemma c2_processedSubs (s t : Snapshot) (hA : s.allowed = t.allowed)
    (hs : s.seed = t.seed)
    (hc : s.clearedSubs.map eraseName = t.clearedSubs.map eraseName) :
    s.processedSubs.map eraseName = t.processedSubs.map eraseName := by
  have hwalk := c2_walkResult s t hA hs hc
  have hdone : s.walkResult.done.map eraseName = t.walkResult.done.map eraseName := by
    have h' := congrArg WalkState.done hwalk
    exact h'
  have hrt : s.walkResult.reportingTo = t.walkResult.reportingTo := by
    have h' := congrArg WalkState.reportingTo hwalk
    exact h'
  have key : ∀ (r : List Nat) (l : List Subcaucus),
      (l.map (markReports r)).map eraseName
        = (l.map eraseName).map (markReports r) := by
    intro r l
    rw [List.map_map, List.map_map]
    apply List.map_congr_left
    intro c _
    exact erase_markReports r c
  unfold Snapshot.processedSubs
  rw [key, hdone, hrt, ← key]

lemma c2_finalSubs (s t : Snapshot) (hA : s.allowed = t.allowed)
    (hs : s.seed = t.seed)
    (hc : s.clearedSubs.map eraseName = t.clearedSubs.map eraseName) :
    s.finalSubs.map eraseName = t.finalSubs.map eraseName := by
  unfold Snapshot.finalSubs
  have key : ∀ (vn : Nat) (dv : ℚ) (P : List Subcaucus) (l : List Subcaucus),
      (l.map (fun c =>
        if vn ≤ c.count then
          (P.find? (fun p => p.id == c.id)).getD (c.setViability dv)
        else c)).map eraseName
      = (l.map eraseName).map (fun c =>
        if vn ≤ c.count then
          ((P.map eraseName).find? (fun p => p.id == c.id)).getD (c.setViability dv)
        else c) := by
    intro vn dv P l
    rw [List.map_map, List.map_map]
    apply List.map_congr_left
    intro c _
    simp only [Function.comp_apply]
    by_cases hv : vn ≤ c.count
    · rw [if_pos hv, if_pos (show vn ≤ (eraseName c).count from hv), List.find?_map]
      show eraseName ((P.find? (fun p => p.id == c.id)).getD (c.setViability dv))
        = (Option.map eraseName (P.find? (fun p => p.id == c.id))).getD
            ((eraseName c).setViability dv)
      cases hfind : P.find? (fun p => p.id == c.id) with
      | none => rfl
      | some q => rfl
    · rw [if_neg hv, if_neg (show ¬ vn ≤ (eraseName c).count from hv)]
  rw [key, hc, c2_vNumber s t hA hc, c2_divisor s t hA hc,
    c2_processedSubs s t hA hs hc, ← key]

/-- Counterexample to C2 as stated: two snapshots with identical `allowed = 3`,
identical `seed = 1` and identical id-to-count mapping `{1 ↦ 5, 2 ↦ 5, 3 ↦ 2}`,
differing only in group insertion order.  The remainder tie between groups 1
and 2 is broken differently (the pre-ranking shuffles the id list as ordered),
so group 2 wins the leftover seat in the first and group 1 in the second. -/
theorem insertion_order_changes_results :
    ((sampleSnap 3 1 [sampleSub 1 5, sampleSub 2 5,
        sampleSub 3 2]).redistributeDelegates.subcaucuses.map
      (fun c => (c.id, c.baseDelegates, c.remainderDelegates)))
      = [(1, 1, 0), (2, 1, 1), (3, 0, 0)] ∧
    ((sampleSnap 3 1 [sampleSub 3 2, sampleSub 2 5,
        sampleSub 1 5]).redistributeDelegates.subcaucuses.map
      (fun c => (c.id, c.baseDelegates, c.remainderDelegates)))
      = [(3, 0, 0), (2, 1, 0), (1, 1, 1)] := by
  refine ⟨?_, ?_⟩ <;> with_unfolding_all decide

/-- C2 as amended: determinism holds for the *ordered* core whenever the
computation runs at all.  Two snapshots with identical nonzero `allowed`,
identical `seed` and the same sequence of `(id, count)` pairs in the same
insertion order — regardless of names, stale per-group delegate state or
stale aggregates — produce identical per-group `(id, baseDelegates,
remainderDelegates, reportTosses, remainder)` and identical values for every
aggregate the invocation recomputes: `participants` always, `viabilityNumber`
and `viableParticipants` once there are participants, `totalDelegates` and
`delegateDivisor` once there are viable participants.  (At `allowed = 0` the
computation returns the snapshot untouched, so stale fields pass through;
and insertion order itself is load-bearing: see the counterexample.) -/
theorem determinism_for_identical_order (s t : Snapshot)
    (hA0 : s.allowed ≠ 0)
    (hAe : s.allowed = t.allowed) (hse : s.seed = t.seed)
    (hcore : s.subcaucuses.map (fun c => (c.id, c.count))
      = t.subcaucuses.map (fun c => (c.id, c.count))) :
    s.redistributeDelegates.subcaucuses.map
        (fun c => (c.id, c.baseDelegates, c.remainderDelegates,
          c.reportTosses, c.remainder))
      = t.redistributeDelegates.subcaucuses.map
        (fun c => (c.id, c.baseDelegates, c.remainderDelegates,
          c.reportTosses, c.remainder)) ∧
    s.redistributeDelegates.participants = t.redistributeDelegates.participants ∧
    (s.computedParticipants ≠ 0 →
      s.redistributeDelegates.viabilityNumber
          = t.redistributeDelegates.viabilityNumber ∧
      s.redistributeDelegates.viableParticipants
          = t.redistributeDelegates.viableParticipants) ∧
    (s.vParticipants ≠ 0 →
      s.redistributeDelegates.totalDelegates
          = t.redistributeDelegates.totalDelegates ∧
      s.redistributeDelegates.delegateDivisor
          = t.redistributeDelegates.delegateDivisor) := by
  have hcE : s.clearedSubs.map eraseName = t.clearedSubs.map eraseName := by
    have key : ∀ l : List Subcaucus,
        (l.map Subcaucus.clearDelegateInfo).map eraseName
          = (l.map (fun c => (c.id, c.count))).map
              (fun p => (⟨p.1, "", p.2, 0, 0, 0, false, []⟩ : Subcaucus)) := by
      intro l
      rw [List.map_map, List.map_map]
      rfl
    unfold Snapshot.clearedSubs
    rw [key, hcore, ← key]
  have hAt : t.allowed ≠ 0 := hAe ▸ hA0
  have keyP : ∀ l : List Subcaucus,
      l.map (fun c => (c.id, c.baseDelegates, c.remainderDelegates,
          c.reportTosses, c.remainder))
        = (l.map eraseName).map (fun c => (c.id, c.baseDelegates,
            c.remainderDelegates, c.reportTosses, c.remainder)) := by
    intro l
    rw [List.map_map]
    rfl
  by_cases hp : s.computedParticipants = 0
  · have hpt : t.computedParticipants = 0 := by
      rw [← c2_computedParticipants s t hcE]
      exact hp
    have hv0 : s.vParticipants = 0 := by
      have := s.vParticipants_le_participants
      omega
    rw [Snapshot.redistribute_eq_noPart s hA0 hp,
      Snapshot.redistribute_eq_noPart t hAt hpt]
    dsimp only
    refine ⟨?_, rfl, fun h => absurd hp h, fun h => absurd hv0 h⟩
    rw [keyP s.clearedSubs, hcE, ← keyP t.clearedSubs]
  · have hpt : t.computedParticipants ≠ 0 := by
      rw [← c2_computedParticipants s t hcE]
      exact hp
    by_cases hv : s.vParticipants = 0
    · have hvt : t.vParticipants = 0 := by
        rw [← c2_vParticipants s t hAe hcE]
        exact hv
      rw [Snapshot.redistribute_eq_noViable s hA0 hp hv,
        Snapshot.redistribute_eq_noViable t hAt hpt hvt]
      dsimp only
      refine ⟨?_, c2_computedParticipants s t hcE,
        fun _ => ⟨c2_vNumber s t hAe hcE, rfl⟩, fun h => absurd hv h⟩
      rw [keyP s.clearedSubs, hcE, ← keyP t.clearedSubs]
    · have hvt : t.vParticipants ≠ 0 := by
        rw [← c2_vParticipants s t hAe hcE]
        exact hv
      rw [Snapshot.redistribute_eq_full s hA0 hp hv,
        Snapshot.redistribute_eq_full t hAt hpt hvt]
      dsimp only
      refine ⟨?_, c2_computedParticipants s t hcE,
        fun _ => ⟨c2_vNumber s t hAe hcE, c2_vParticipants s t hAe hcE⟩,
        fun _ => ⟨?_, c2_divisor s t hAe hcE⟩⟩
      · rw [keyP s.finalSubs, c2_finalSubs s t hAe hse hcE, ← keyP t.finalSubs]
      · have h' := congrArg WalkState.totalDelegates (c2_walkResult s t hAe hse hcE)
        exact h'

/-- Witness for C2 (amended): the clean three-group snapshot against a
version of it loaded with junk names and stale delegate state; the recomputed
totals agree. -/
theorem determinism_for_identical_order_witness :
    (sampleSnap 3 1 [sampleSub 1 5, sampleSub 2 5,
      sampleSub 3 2]).redistributeDelegates.totalDelegates
      = ({ name := "junk", allowed := 3, seed := 1, revised := 4, revision := "x",
           subcaucuses := [⟨1, "A", 5, 7, 1/2, 2, true, [(9, true)]⟩,
             ⟨2, "B", 5, 0, 0, 0, false, []⟩, ⟨3, "C", 2, 5, 1/3, 1, true, []⟩],
           participants := 99, totalDelegates := 42, participantsPerDelegate := 7,
           viabilityNumber := 1, viableParticipants := 3,
           delegateDivisor := 9 } : Snapshot).redistributeDelegates.totalDelegates := by
  have h := determinism_for_identical_order
    (sampleSnap 3 1 [sampleSub 1 5, sampleSub 2 5, sampleSub 3 2])
    ({ name := "junk", allowed := 3, seed := 1, revised := 4, revision := "x",
       subcaucuses := [⟨1, "A", 5, 7, 1/2, 2, true, [(9, true)]⟩,
         ⟨2, "B", 5, 0, 0, 0, false, []⟩, ⟨3, "C", 2, 5, 1/3, 1, true, []⟩],
       participants := 99, totalDelegates := 42, participantsPerDelegate := 7,
       viabilityNumber := 1, viableParticipants := 3,
       delegateDivisor := 9 } : Snapshot)
    (by decide) rfl rfl (by decide)
  exact (h.2.2.2 (by with_unfolding_all decide)).1

/-! ## Claim C4: monotonic viability (corrected) -/

/-- Counterexample to C4 as stated: with `allowed = 13`, `seed = 968882` and
counts `7, 34, 28, 8, 6, 15, 6`, raising the count of group 6 from 15 to 16
drops its `totalDelegates` from 3 to 2: the raise pushes the viability number
from 9 to 10, evicting groups 1 and 4 (and their 15 participants) from the
viable pool, which hands the seats they occupied to the two largest groups. -/
theorem raising_count_can_drop_total :
    ((sampleSnap 13 968882 [sampleSub 1 7, sampleSub 2 34, sampleSub 3 28,
        sampleSub 4 8, sampleSub 5 6, sampleSub 6 15,
        sampleSub 7 6]).redistributeDelegates.subcaucuses.map
      (fun c => (c.id, c.baseDelegates + c.remainderDelegates)))
      = [(1, 0), (2, 5), (3, 4), (4, 1), (5, 0), (6, 3), (7, 0)] ∧
    ((sampleSnap 13 968882 [sampleSub 1 7, sampleSub 2 34, sampleSub 3 28,
        sampleSub 4 8, sampleSub 5 6, sampleSub 6 16,
        sampleSub 7 6]).redistributeDelegates.subcaucuses.map
      (fun c => (c.id, c.baseDelegates + c.remainderDelegates)))
      = [(1, 0), (2, 6), (3, 5), (4, 0), (5, 0), (6, 2), (7, 0)] := by
  refine ⟨?_, ?_⟩ <;> with_unfolding_all decide

/-- Division comparison by cross-multiplication, in ℕ. -/
lemma div_le_div_cross (a b a' b' : Nat) (hb : b ≠ 0) (hb' : b' ≠ 0)
    (h : a * b' ≤ a' * b) : a / b ≤ a' / b' := by
  have hbp : 0 < b := Nat.pos_of_ne_zero hb
  have hbp' : 0 < b' := Nat.pos_of_ne_zero hb'
  rw [Nat.le_div_iff_mul_le hbp']
  have h1 : a / b * b' * b ≤ a * b' := by
    have h0 : a / b * b ≤ a := Nat.div_mul_le_self a b
    calc a / b * b' * b = a / b * b * b' := by ring
      _ ≤ a * b' := Nat.mul_le_mul_right b' h0
  exact Nat.le_of_mul_le_mul_right (le_trans h1 h) hbp

/-- The viable-participant total of a raw group list (the sum the code takes
over the cleared, viability-filtered records). -/
def Vpart (vn : Nat) (l : List Subcaucus) : Nat :=
  ((Snapshot.viableFilter vn (l.map Subcaucus.clearDelegateInfo)).map
    Subcaucus.count).sum

lemma Vpart_append (vn : Nat) (a b : List Subcaucus) :
    Vpart vn (a ++ b) = Vpart vn a + Vpart vn b := by
  unfold Vpart Snapshot.viableFilter
  rw [List.map_append, List.filter_append, List.map_append, List.sum_append]

lemma Vpart_cons (vn : Nat) (c : Subcaucus) (l : List Subcaucus) :
    Vpart vn (c :: l) = (if vn ≤ c.count then c.count else 0) + Vpart vn l := by
  unfold Vpart Snapshot.viableFilter
  rw [List.map_cons, List.filter_cons]
  by_cases h : vn ≤ c.count
  · rw [if_pos (show decide (vn ≤ c.clearDelegateInfo.count) = true
        from decide_eq_true h), if_pos h, List.map_cons, List.sum_cons]
    rfl
  · rw [if_neg (show ¬ decide (vn ≤ c.clearDelegateInfo.count) = true
        from by simpa using h), if_neg h, Nat.zero_add]

lemma Vpart_mono (vn vn' : Nat) (h : vn ≤ vn') (l : List Subcaucus) :
    Vpart vn' l ≤ Vpart vn l := by
  induction l with
  | nil => exact Nat.le_refl 0
  | cons c l ih =>
    rw [Vpart_cons, Vpart_cons]
    have hhead : (if vn' ≤ c.count then c.count else 0)
        ≤ (if vn ≤ c.count then c.count else 0) := by
      split_ifs with h1 h2
      · exact le_refl _
      · exact absurd (le_trans h h1) h2
      · exact Nat.zero_le _
      · exact le_refl _
    omega

lemma Snapshot.computedParticipants_eq (s : Snapshot) :
    s.computedParticipants = (s.subcaucuses.map Subcaucus.count).sum := by
  unfold Snapshot.computedParticipants Snapshot.clearedSubs
  rw [List.map_map]
  rfl

lemma Snapshot.vParticipants_eq_Vpart (s : Snapshot) :
    s.vParticipants = Vpart s.vNumber s.subcaucuses := rfl

lemma Snapshot.vNumber_eq_div (s : Snapshot) (hA : s.allowed ≠ 0) :
    s.vNumber = (s.computedParticipants + s.allowed - 1) / s.allowed := by
  unfold Snapshot.vNumber Snapshot.pPerD
  exact toNat_ceil_natCast_div _ _ hA

lemma ceil_div_le_add (n x A : Nat) (hA : 0 < A) :
    (n + x + A - 1) / A ≤ (n + A - 1) / A + x := by
  have hxA : x ≤ x * A := Nat.le_mul_of_pos_right x hA
  calc (n + x + A - 1) / A ≤ ((n + A - 1) + x * A) / A :=
        Nat.div_le_div_right (by omega)
    _ = (n + A - 1) / A + x := Nat.add_mul_div_right _ _ hA

/-- C4 as amended: raising a single group's count (with everything else held
fixed) never decreases that group's `baseDelegates`.  The original claim about
`totalDelegates` is false — the raise can push the viability number up, evict
smaller groups from the pool and reshuffle the leftover seats (see the
counterexample) — but the floor-quota seats are monotone. -/
theorem raising_count_never_drops_base (s t : Snapshot)
    (l₁ l₂ : List Subcaucus) (g : Subcaucus) (x : Nat)
    (hsubs₁ : s.subcaucuses = l₁ ++ g :: l₂)
    (hsubs₂ : t.subcaucuses = l₁ ++ { g with count := g.count + x } :: l₂)
    (hAe : t.allowed = s.allowed)
    (hnd : (s.subcaucuses.map Subcaucus.id).Nodup) :
    ∀ c₁ ∈ s.redistributeDelegates.subcaucuses,
      ∀ c₂ ∈ t.redistributeDelegates.subcaucuses,
        c₁.id = g.id → c₂.id = g.id → c₁.baseDelegates ≤ c₂.baseDelegates := by
  intro c₁ hc₁ c₂ hc₂ hid₁ hid₂
  have hids : t.subcaucuses.map Subcaucus.id = s.subcaucuses.map Subcaucus.id := by
    rw [hsubs₁, hsubs₂, List.map_append, List.map_append, List.map_cons,
      List.map_cons]
  have hndt : (t.subcaucuses.map Subcaucus.id).Nodup := by
    rw [hids]
    exact hnd
  have hgmem : g ∈ s.subcaucuses := by
    rw [hsubs₁]
    exact List.mem_append_right l₁ (List.mem_cons_self g l₂)
  have hg'mem : ({ g with count := g.count + x } : Subcaucus) ∈ t.subcaucuses := by
    rw [hsubs₂]
    exact List.mem_append_right l₁ (List.mem_cons_self _ l₂)
  by_cases hA : s.allowed = 0
  · rw [Snapshot.redistribute_eq_zero s hA] at hc₁
    rw [Snapshot.redistribute_eq_zero t (by rw [hAe]; exact hA)] at hc₂
    have h1 : c₁ = g := List.inj_on_of_nodup_map hnd hc₁ hgmem hid₁
    have h2 : c₂ = { g with count := g.count + x } :=
      List.inj_on_of_nodup_map hndt hc₂ hg'mem
        (show c₂.id = ({ g with count := g.count + x } : Subcaucus).id from hid₂)
    rw [h1, h2]
  · by_cases hp : s.computedParticipants = 0
    · rw [Snapshot.redistribute_eq_noPart s hA hp] at hc₁
      dsimp only at hc₁
      rw [(Snapshot.mem_clearedSubs s hc₁).1]
      exact Nat.zero_le _
    · by_cases hV : s.vParticipants = 0
      · rw [Snapshot.redistribute_eq_noViable s hA hp hV] at hc₁
        dsimp only at hc₁
        rw [(Snapshot.mem_clearedSubs s hc₁).1]
        exact Nat.zero_le _
      · rw [Snapshot.redistribute_eq_full s hA hp hV] at hc₁
        dsimp only at hc₁
        unfold Snapshot.finalSubs at hc₁
        obtain ⟨c0, hc0, rfl⟩ := List.mem_map.mp hc₁
        have hFid : ((if s.vNumber ≤ c0.count then
            (s.processedSubs.find? (fun p => p.id == c0.id)).getD
              (c0.setViability s.divisor)
          else c0) : Subcaucus).id = c0.id := by
          split_ifs with hv0
          · obtain ⟨q, hq, _, hqid, _⟩ :=
              Snapshot.finalSubs_viable_val s hnd c0 hc0 hv0
            rw [hq, hqid]
          · rfl
        have hc0id : c0.id = g.id := by
          rw [← hFid]
          exact hid₁
        have hc0g : c0 = g.clearDelegateInfo := by
          have hclg : g.clearDelegateInfo ∈ s.clearedSubs :=
            List.mem_map_of_mem Subcaucus.clearDelegateInfo hgmem
          have hndc : (s.clearedSubs.map Subcaucus.id).Nodup :=
            Snapshot.clearedSubs_ids_nodup s hnd
          exact List.inj_on_of_nodup_map hndc hc0 hclg
            (show c0.id = g.clearDelegateInfo.id from hc0id)
        subst hc0g
        by_cases hv : s.vNumber ≤ g.count
        · rw [if_pos (show s.vNumber ≤ g.clearDelegateInfo.count from hv)]
          obtain ⟨q, hq, _, _, _, _, hqbase, _⟩ :=
            Snapshot.finalSubs_viable_val s hnd g.clearDelegateInfo hc0
              (show s.vNumber ≤ g.clearDelegateInfo.count from hv)
          rw [hq, hqbase]
          have hbase₁ : ((g.clearDelegateInfo).setViability s.divisor).baseDelegates
              = g.count * s.allowed / s.vParticipants := by
            rw [show s.divisor
                = ((s.vParticipants : ℚ) / (s.allowed : ℚ)) from rfl,
              setV_base_nat _ _ _ hA hV]
            rfl
          rw [hbase₁]
          have hApos : 0 < s.allowed := Nat.pos_of_ne_zero hA
          have hcp : t.computedParticipants = s.computedParticipants + x := by
            rw [Snapshot.computedParticipants_eq, Snapshot.computedParticipants_eq,
              hsubs₁, hsubs₂, List.map_append, List.map_append, List.map_cons,
              List.map_cons, List.sum_append, List.sum_append, List.sum_cons,
              List.sum_cons,
              show ({ g with count := g.count + x } : Subcaucus).count
                = g.count + x from rfl]
            omega
          have htA : t.allowed ≠ 0 := by
            rw [hAe]
            exact hA
          have hvn_mono : s.vNumber ≤ t.vNumber := by
            rw [Snapshot.vNumber_eq_div s hA, Snapshot.vNumber_eq_div t htA,
              hAe, hcp]
            exact Nat.div_le_div_right (by omega)
          have hvn_le : t.vNumber ≤ s.vNumber + x := by
            rw [Snapshot.vNumber_eq_div s hA, Snapshot.vNumber_eq_div t htA,
              hAe, hcp]
            exact ceil_div_le_add s.computedParticipants x s.allowed hApos
          have hVs : s.vParticipants
              = Vpart s.vNumber l₁ + g.count + Vpart s.vNumber l₂ := by
            rw [Snapshot.vParticipants_eq_Vpart, hsubs₁, Vpart_append, Vpart_cons,
              if_pos hv]
            omega
          have hVt : t.vParticipants
              = Vpart t.vNumber l₁ + (g.count + x) + Vpart t.vNumber l₂ := by
            have hvt' : t.vNumber ≤ g.count + x := le_trans hvn_le (by omega)
            rw [Snapshot.vParticipants_eq_Vpart, hsubs₂, Vpart_append, Vpart_cons,
              if_pos (show t.vNumber
                ≤ ({ g with count := g.count + x } : Subcaucus).count from hvt'),
              show ({ g with count := g.count + x } : Subcaucus).count
                = g.count + x from rfl]
            omega
          have hvn1 : 1 ≤ s.vNumber := by
            rw [Snapshot.vNumber_eq_div s hA, Nat.le_div_iff_mul_le hApos]
            omega
          have hgpos : 1 ≤ g.count := le_trans hvn1 hv
          have hVt_ne : t.vParticipants ≠ 0 := by
            rw [hVt]
            omega
          have htp : t.computedParticipants ≠ 0 := by
            rw [hcp]
            omega
          have hVt_le : t.vParticipants ≤ s.vParticipants + x := by
            have hm1 := Vpart_mono s.vNumber t.vNumber hvn_mono l₁
            have hm2 := Vpart_mono s.vNumber t.vNumber hvn_mono l₂
            omega
          have hgVs : g.count ≤ s.vParticipants := by
            rw [hVs]
            omega
          rw [Snapshot.redistribute_eq_full t htA htp hVt_ne] at hc₂
          dsimp only at hc₂
          unfold Snapshot.finalSubs at hc₂
          obtain ⟨d0, hd0, rfl⟩ := List.mem_map.mp hc₂
          have hFid₂ : ((if t.vNumber ≤ d0.count then
              (t.processedSubs.find? (fun p => p.id == d0.id)).getD
                (d0.setViability t.divisor)
            else d0) : Subcaucus).id = d0.id := by
            split_ifs with hv0
            · obtain ⟨q₀, hq₀, _, hq₀id, _⟩ :=
                Snapshot.finalSubs_viable_val t hndt d0 hd0 hv0
              rw [hq₀, hq₀id]
            · rfl
          have hd0id : d0.id = g.id := by
            rw [← hFid₂]
            exact hid₂
          have hd0g : d0 = ({ g with count := g.count + x } : Subcaucus).clearDelegateInfo := by
            have hclg' : ({ g with count := g.count + x } : Subcaucus).clearDelegateInfo
                ∈ t.clearedSubs :=
              List.mem_map_of_mem Subcaucus.clearDelegateInfo hg'mem
            have hndc' : (t.clearedSubs.map Subcaucus.id).Nodup :=
              Snapshot.clearedSubs_ids_nodup t hndt
            exact List.inj_on_of_nodup_map hndc' hd0 hclg'
              (show d0.id
                = ({ g with count := g.count + x } : Subcaucus).clearDelegateInfo.id
                from hd0id)
          subst hd0g
          have hvt'' : t.vNumber
              ≤ ({ g with count := g.count + x } : Subcaucus).clearDelegateInfo.count := by
            show t.vNumber ≤ g.count + x
            have := le_trans hvn_le (by omega : s.vNumber + x ≤ g.count + x)
            exact this
          rw [if_pos hvt'']
          obtain ⟨q₂, hq₂, _, _, _, _, hq₂base, _⟩ :=
            Snapshot.finalSubs_viable_val t hndt
              ({ g with count := g.count + x } : Subcaucus).clearDelegateInfo hd0 hvt''
          rw [hq₂, hq₂base]
          have hbase₂ : ((({ g with count := g.count + x } : Subcaucus).clearDelegateInfo).setViability
                t.divisor).baseDelegates
              = (g.count + x) * s.allowed / t.vParticipants := by
            rw [show t.divisor
                = ((t.vParticipants : ℚ) / (t.allowed : ℚ)) from rfl,
              setV_base_nat _ _ _ htA hVt_ne, hAe]
            rfl
          rw [hbase₂]
          apply div_le_div_cross _ _ _ _ hV hVt_ne
          have key : g.count * t.vParticipants
              ≤ (g.count + x) * s.vParticipants := by
            calc g.count * t.vParticipants
                ≤ g.count * (s.vParticipants + x) :=
                  Nat.mul_le_mul_left g.count hVt_le
              _ = g.count * s.vParticipants + g.count * x := by ring
              _ ≤ g.count * s.vParticipants + s.vParticipants * x := by
                  have := Nat.mul_le_mul_right x hgVs
                  omega
              _ = (g.count + x) * s.vParticipants := by ring
          calc g.count * s.allowed * t.vParticipants
              = g.count * t.vParticipants * s.allowed := by ring
            _ ≤ (g.count + x) * s.vParticipants * s.allowed :=
                Nat.mul_le_mul_right s.allowed key
            _ = (g.count + x) * s.allowed * s.vParticipants := by ring
        · rw [if_neg (show ¬ s.vNumber ≤ g.clearDelegateInfo.count from hv)]
          rw [show g.clearDelegateInfo.baseDelegates = 0 from rfl]
          exact Nat.zero_le _

/-- Witness for C4 (amended): spec scenario C with the viable group's count
raised from 6 to 8 (`allowed = 2`); its base seats stay at 2. -/
theorem raising_count_never_drops_base_witness :
    (⟨1, "", 6, 2, 0, 0, false, []⟩ : Subcaucus).baseDelegates
      ≤ (⟨1, "", 8, 2, 0, 0, false, []⟩ : Subcaucus).baseDelegates :=
  raising_count_never_drops_base
    (sampleSnap 2 3 [sampleSub 1 6, sampleSub 2 4])
    (sampleSnap 2 3 [sampleSub 1 8, sampleSub 2 4])
    [] [sampleSub 2 4] (sampleSub 1 6) 2
    rfl rfl rfl (by decide)
    (⟨1, "", 6, 2, 0, 0, false, []⟩ : Subcaucus) (by with_unfolding_all decide)
    (⟨1, "", 8, 2, 0, 0, false, []⟩ : Subcaucus) (by with_unfolding_all decide)
    rfl rfl

/-! ## Claim C6 machinery: the exact shape of the walk's reporting list -/

/-- On a list where earlier elements satisfy `p` whenever later ones do,
`takeWhile` and `filter` agree. -/
lemma takeWhile_eq_filter_of_pairwise (p : Subcaucus → Bool) :
    ∀ l : List Subcaucus,
      l.Pairwise (fun a b => p b = true → p a = true) →
      l.takeWhile p = l.filter p := by
  intro l
  induction l with
  | nil => intro _; rfl
  | cons c l ih =>
    intro hp
    rcases List.pairwise_cons.mp hp with ⟨hhead, htail⟩
    rw [List.takeWhile_cons, List.filter_cons]
    by_cases hc : p c = true
    · rw [if_pos hc, if_pos hc, ih htail]
    · rw [if_neg hc, if_neg hc]
      symm
      rw [List.filter_eq_nil_iff]
      intro a ha hpa
      exact hc (hhead a ha hpa)

/-- The head of a `dropWhile` residue fails the predicate. -/
lemma dropWhile_head_not (p : Subcaucus → Bool) :
    ∀ (l : List Subcaucus) (c : Subcaucus) (S : List Subcaucus),
      l.dropWhile p = c :: S → p c = false := by
  intro l
  induction l with
  | nil => intro c S h; exact absurd h (by simp)
  | cons a l ih =>
    intro c S h
    rw [List.dropWhile_cons] at h
    by_cases ha : p a = true
    · rw [if_pos ha] at h
      exact ih c S h
    · rw [if_neg ha] at h
      injection h with h1 h2
      rw [← h1]
      exact Bool.eq_false_iff.mpr ha

/-- Tail of the walk once the tracked remainder is reset to `-1` and
`justAddedRemainderDelegate` is off: every further group hits the third
branch, which leaves the reporting list untouched. -/
lemma walk_tail_stuck (A : Nat) :
    ∀ (Q : List Subcaucus) (st : WalkState),
      ¬ st.totalDelegates < A → st.remainder = -1 → st.justAdded = false →
      (∀ c ∈ Q, 0 ≤ c.remainder) →
      Q.foldl (walkStep A) st
        = ⟨st.totalDelegates, -1, st.reportingTo, false, st.done ++ Q⟩ := by
  intro Q
  induction Q with
  | nil =>
    intro st h hrem hja _
    rw [List.foldl_nil, List.append_nil, ← hrem, ← hja]
  | cons c Q ih =>
    intro st h hrem hja hnn
    rw [List.foldl_cons]
    have hne : ¬ st.remainder = c.remainder := by
      rw [hrem]
      intro heq
      have h0 := hnn c (List.mem_cons_self c Q)
      rw [← heq] at h0
      norm_num at h0
    have hstep : walkStep A st c
        = ⟨st.totalDelegates, -1, st.reportingTo, false, st.done ++ [c]⟩ := by
      unfold walkStep
      rw [if_neg h, if_neg hne, hja, if_neg Bool.false_ne_true]
    rw [hstep,
      ih _ (by exact h) rfl rfl (fun d hd => hnn d (List.mem_cons_of_mem c hd)),
      List.append_assoc]
    rfl

/-- Tail of the walk over a run of groups whose remainder still equals the
tracked remainder: each one is appended to the reporting list. -/
lemma walk_tail_run (A : Nat) :
    ∀ (R : List Subcaucus) (st : WalkState) (r : ℚ),
      ¬ st.totalDelegates < A → st.remainder = r →
      (∀ c ∈ R, c.remainder = r) →
      R.foldl (walkStep A) st
        = ⟨st.totalDelegates, r, st.reportingTo ++ R.map Subcaucus.id,
           (if R.isEmpty then st.justAdded else false), st.done ++ R⟩ := by
  intro R
  induction R with
  | nil =>
    intro st r h hrem _
    rw [List.foldl_nil, ← hrem, List.map_nil, List.append_nil, List.append_nil]
    rfl
  | cons c R ih =>
    intro st r h hrem hall
    rw [List.foldl_cons]
    have hceq : st.remainder = c.remainder := by
      rw [hrem, hall c (List.mem_cons_self c R)]
    have hstep : walkStep A st c
        = ⟨st.totalDelegates, st.remainder, st.reportingTo ++ [c.id], false,
           st.done ++ [c]⟩ := by
      unfold walkStep
      rw [if_neg h, if_pos hceq]
    rw [hstep,
      ih _ r (by exact h) (by exact hrem)
        (fun d hd => hall d (List.mem_cons_of_mem c hd)),
      List.map_cons, List.append_assoc, List.append_assoc]
    simp [List.isEmpty_cons]

/-- Seat phase of the walk, started from a reset state with seats available
for every group in the list: each group receives one remainder seat, the
tracked remainder follows along, and the reporting list ends up holding
exactly the maximal suffix of groups tied with the last seated one. -/
lemma walk_seat_phase (A : Nat) :
    ∀ (P : List Subcaucus) (st0 : WalkState),
      st0.remainder = -1 → st0.reportingTo = [] →
      (∀ c ∈ P, 0 ≤ c.remainder) →
      st0.totalDelegates + P.length ≤ A →
      ∀ hne : P ≠ [],
        P.foldl (walkStep A) st0 =
          ⟨st0.totalDelegates + P.length,
           (P.getLast hne).remainder,
           ((P.reverse.takeWhile
              (fun c => decide (c.remainder = (P.getLast hne).remainder))).reverse).map
             Subcaucus.id,
           true,
           st0.done ++ P.map Subcaucus.addRemainderDelegate⟩ := by
  intro P
  induction P using List.reverseRecOn with
  | nil =>
    intro st0 _ _ _ _ hne
    exact absurd rfl hne
  | append_singleton l a ih =>
    intro st0 h0 hrt hnn hcap hne
    have hlen : (l ++ [a]).length = l.length + 1 := by
      rw [List.length_append, List.length_cons, List.length_nil]
    have hlast : ((l ++ [a]).getLast hne) = a := by
      rw [List.getLast_append]
      simp
    have hrev : (l ++ [a]).reverse = a :: l.reverse := by
      rw [List.reverse_append, List.reverse_singleton, List.singleton_append]
    rw [hlast, hrev, List.takeWhile_cons, if_pos (decide_eq_true rfl),
      List.reverse_cons, List.map_append, List.map_cons, List.map_nil, hlen,
      List.map_append, List.map_cons, List.map_nil]
    by_cases hl : l = []
    · subst hl
      have hlt : st0.totalDelegates < A := by
        rw [hlen] at hcap
        omega
      have hneq : st0.remainder ≠ a.remainder := by
        rw [h0]
        intro heq
        have ha0 : 0 ≤ a.remainder :=
          hnn a (List.mem_append_right [] (List.mem_cons_self a []))
        rw [← heq] at ha0
        norm_num at ha0
      show walkStep A st0 a = _
      unfold walkStep
      rw [if_pos hlt, if_pos hneq]
      rfl
    · rw [List.foldl_append]
      have hcap' : st0.totalDelegates + l.length ≤ A := by
        rw [hlen] at hcap
        omega
      rw [ih st0 h0 hrt (fun c hc => hnn c (List.mem_append_left _ hc)) hcap' hl]
      have hlt : st0.totalDelegates + l.length < A := by
        rw [hlen] at hcap
        omega
      rw [List.foldl_cons, List.foldl_nil]
      unfold walkStep
      rw [if_pos hlt]
      by_cases heq : (l.getLast hl).remainder = a.remainder
      · rw [if_neg (not_not_intro heq), heq, Nat.add_assoc, List.append_assoc]
      · rw [if_pos (show (l.getLast hl).remainder ≠ a.remainder from heq)]
        dsimp only
        have hrevne : l.reverse ≠ [] := by
          intro hcon
          exact hl (by simpa using congrArg List.reverse hcon)
        obtain ⟨hd, tl, hrev2⟩ := List.exists_cons_of_ne_nil hrevne
        have hhd : hd.remainder = (l.getLast hl).remainder := by
          have hh : l.reverse.head hrevne = hd := by
            have h1 : l.reverse.head? = some hd := by
              rw [hrev2]
              rfl
            have h2 : l.reverse.head? = some (l.reverse.head hrevne) :=
              List.head?_eq_head hrevne
            rw [h1] at h2
            exact (Option.some_inj.mp h2).symm
          rw [← hh, List.head_reverse]
        rw [hrev2, List.takeWhile_cons,
          if_neg (show ¬ decide (hd.remainder = a.remainder) = true from by
            rw [decide_eq_true_iff, hhd]
            exact heq),
          List.reverse_nil, List.map_nil, List.nil_append, Nat.add_assoc,
          List.append_assoc]

/-- Remainders of ranked groups are nonnegative fractional parts. -/
lemma Snapshot.ranked_rem_nonneg (s : Snapshot) :
    ∀ c ∈ s.rankedSubs, 0 ≤ c.remainder := by
  intro c hc
  obtain ⟨c0, _, rfl⟩ := Snapshot.mem_rankedSubs s hc
  rw [show (logTosses s.ranks s.vSubsV (c0.setViability s.divisor)).remainder
      = (c0.setViability s.divisor).remainder from rfl,
    Subcaucus.setV_rem]
  exact Int.fract_nonneg _

/-- The ranked list is sorted by non-increasing remainder. -/
lemma Snapshot.ranked_sorted_rem (s : Snapshot) :
    s.rankedSubs.Pairwise (fun a b => b.remainder ≤ a.remainder) := by
  have h : s.rankedSubs.Pairwise (remOrder s.ranks) :=
    List.sorted_insertionSort (remOrder s.ranks)
      (s.vSubsV.map (logTosses s.ranks s.vSubsV))
  refine h.imp ?_
  intro a b hab
  rcases hab with h1 | ⟨h1, _⟩
  · exact le_of_lt h1
  · exact le_of_eq h1

/-- Ranked groups carry a cleared `reportTosses`. -/
lemma Snapshot.ranked_rT_false (s : Snapshot) :
    ∀ c ∈ s.rankedSubs, c.reportTosses = false := by
  intro c hc
  obtain ⟨c0, hc0, rfl⟩ := Snapshot.mem_rankedSubs s hc
  rw [show (logTosses s.ranks s.vSubsV (c0.setViability s.divisor)).reportTosses
      = c0.reportTosses from rfl]
  exact (Snapshot.mem_clearedSubs s (Snapshot.mem_vSubsOf_cleared s hc0).1).2.2.2.1

/-- In a descending-remainder list the last element is minimal. -/
lemma getLast_rem_min :
    ∀ (l : List Subcaucus) (hne : l ≠ []),
      l.Pairwise (fun a b => b.remainder ≤ a.remainder) →
      ∀ a ∈ l, (l.getLast hne).remainder ≤ a.remainder := by
  intro l
  induction l with
  | nil => intro hne; exact absurd rfl hne
  | cons c l ih =>
    intro hne hp a ha
    rcases List.pairwise_cons.mp hp with ⟨hhead, htail⟩
    by_cases hl : l = []
    · subst hl
      rcases List.mem_singleton.mp ha with rfl
      exact le_refl _
    · rw [List.getLast_cons hl]
      rcases List.mem_cons.mp ha with rfl | ha'
      · exact hhead _ (List.getLast_mem hl)
      · exact ih hl htail a ha'

/-- In a descending-remainder list the head is maximal. -/
lemma head_rem_max :
    ∀ (l : List Subcaucus) (hne : l ≠ []),
      l.Pairwise (fun a b => b.remainder ≤ a.remainder) →
      ∀ a ∈ l, a.remainder ≤ (l.head hne).remainder := by
  intro l
  cases l with
  | nil => intro hne; exact absurd rfl hne
  | cons c l =>
    intro hne hp a ha
    rw [List.head_cons]
    rcases List.mem_cons.mp ha with rfl | ha'
    · exact le_refl _
    · exact (List.pairwise_cons.mp hp).1 a ha'

/-- Third branch of the walk with `justAddedRemainderDelegate` off: the
reporting list survives. -/
lemma walkStep_reset (A : Nat) (st : WalkState) (c : Subcaucus)
    (h : ¬ st.totalDelegates < A) (hne : ¬ st.remainder = c.remainder)
    (hja : st.justAdded = false) :
    walkStep A st c
      = ⟨st.totalDelegates, -1, st.reportingTo, false, st.done ++ [c]⟩ := by
  unfold walkStep
  rw [if_neg h, if_neg hne, hja, if_neg Bool.false_ne_true]

/-- Third branch of the walk right after a seat was added: the reporting
list is wiped. -/
lemma walkStep_reset_clear (A : Nat) (st : WalkState) (c : Subcaucus)
    (h : ¬ st.totalDelegates < A) (hne : ¬ st.remainder = c.remainder)
    (hja : st.justAdded = true) :
    walkStep A st c
      = ⟨st.totalDelegates, -1, [], false, st.done ++ [c]⟩ := by
  unfold walkStep
  rw [if_neg h, if_neg hne, hja, if_pos rfl]

/-- The exact contents of the reporting list after the walk: nonempty exactly
when the last seated ranked group (position `allowed - baseTotal - 1`) and the
first unseated one (position `allowed - baseTotal`) are tied, in which case it
holds the ids of every ranked group carrying that tied remainder. -/
lemma Snapshot.walk_reportingTo (s : Snapshot) (hA : s.allowed ≠ 0)
    (hV : s.vParticipants ≠ 0) :
    s.walkResult.reportingTo
      = if 0 < s.allowed - s.baseTotal ∧
           ((s.rankedSubs.drop (s.allowed - s.baseTotal)).head?).map Subcaucus.remainder
             = ((s.rankedSubs.take (s.allowed - s.baseTotal)).getLast?).map
                 Subcaucus.remainder
        then (s.rankedSubs.filter (fun c =>
            decide (((s.rankedSubs.take (s.allowed - s.baseTotal)).getLast?).map
                Subcaucus.remainder
              = some c.remainder))).map Subcaucus.id
        else [] := by
  have hble : s.baseTotal ≤ s.allowed := Snapshot.baseTotal_le s hA hV
  have hlen : s.rankedSubs.length = s.vSubsOf.length := Snapshot.rankedSubs_length s
  have hlt : s.allowed < s.baseTotal + s.rankedSubs.length := by
    have h := Snapshot.allowed_lt_baseTotal_add s hA hV
    omega
  have hDlt : s.allowed - s.baseTotal < s.rankedSubs.length := by omega
  unfold Snapshot.walkResult
  have hfold : s.rankedSubs.foldl (walkStep s.allowed) (walkInit s.baseTotal)
      = (s.rankedSubs.take (s.allowed - s.baseTotal)
          ++ s.rankedSubs.drop (s.allowed - s.baseTotal)).foldl
        (walkStep s.allowed) (walkInit s.baseTotal) := by
    rw [List.take_append_drop]
  rw [hfold, List.foldl_append]
  by_cases hD0 : s.allowed - s.baseTotal = 0
  · rw [hD0, List.take_zero, List.foldl_nil, List.drop_zero,
      walk_tail_stuck s.allowed s.rankedSubs (walkInit s.baseTotal)
        (by show ¬ s.baseTotal < s.allowed; omega) rfl rfl
        (Snapshot.ranked_rem_nonneg s),
      if_neg (fun h => absurd h.1 (by omega))]
    rfl
  · have hPlen : (s.rankedSubs.take (s.allowed - s.baseTotal)).length
        = s.allowed - s.baseTotal := by
      rw [List.length_take, Nat.min_eq_left (Nat.le_of_lt hDlt)]
    have hPne : s.rankedSubs.take (s.allowed - s.baseTotal) ≠ [] := by
      apply List.ne_nil_of_length_pos
      rw [hPlen]
      omega
    have hQne : s.rankedSubs.drop (s.allowed - s.baseTotal) ≠ [] := by
      apply List.ne_nil_of_length_pos
      rw [List.length_drop]
      omega
    have hlast? : (s.rankedSubs.take (s.allowed - s.baseTotal)).getLast?
        = some ((s.rankedSubs.take (s.allowed - s.baseTotal)).getLast hPne) :=
      List.getLast?_eq_getLast _ hPne
    have hhead? : (s.rankedSubs.drop (s.allowed - s.baseTotal)).head?
        = some ((s.rankedSubs.drop (s.allowed - s.baseTotal)).head hQne) :=
      List.head?_eq_head hQne
    rw [walk_seat_phase s.allowed _ (walkInit s.baseTotal) rfl rfl
      (fun c hc => Snapshot.ranked_rem_nonneg s c ((List.take_sublist _ _).subset hc))
      (by rw [hPlen]; show s.baseTotal + (s.allowed - s.baseTotal) ≤ s.allowed; omega)
      hPne]
    have hnotlt : ¬ ((walkInit s.baseTotal).totalDelegates
        + (s.rankedSubs.take (s.allowed - s.baseTotal)).length < s.allowed) := by
      rw [hPlen]
      show ¬ s.baseTotal + (s.allowed - s.baseTotal) < s.allowed
      omega
    have hPsorted : (s.rankedSubs.take (s.allowed - s.baseTotal)).Pairwise
        (fun a b => b.remainder ≤ a.remainder) :=
      (Snapshot.ranked_sorted_rem s).sublist (List.take_sublist _ _)
    have hQsorted : (s.rankedSubs.drop (s.allowed - s.baseTotal)).Pairwise
        (fun a b => b.remainder ≤ a.remainder) :=
      (Snapshot.ranked_sorted_rem s).sublist (List.drop_sublist _ _)
    by_cases hstrad : ((s.rankedSubs.drop (s.allowed - s.baseTotal)).head hQne).remainder
        = ((s.rankedSubs.take (s.allowed - s.baseTotal)).getLast hPne).remainder
    · -- straddling tie: the run around the cutoff is collected
      have hPmin := getLast_rem_min _ hPne hPsorted
      have hQmax := head_rem_max _ hQne hQsorted
      have hM1 : (s.rankedSubs.take (s.allowed - s.baseTotal)).reverse.Pairwise
          (fun a b =>
            decide (b.remainder
                = ((s.rankedSubs.take (s.allowed - s.baseTotal)).getLast hPne).remainder)
              = true →
            decide (a.remainder
                = ((s.rankedSubs.take (s.allowed - s.baseTotal)).getLast hPne).remainder)
              = true) := by
        rw [List.pairwise_reverse]
        refine List.Pairwise.imp_of_mem ?_ hPsorted
        intro a b ha hb hdesc hpa
        have ha' : a.remainder
            = ((s.rankedSubs.take (s.allowed - s.baseTotal)).getLast hPne).remainder :=
          of_decide_eq_true hpa
        exact decide_eq_true (le_antisymm (ha' ▸ hdesc) (hPmin b hb))
      have hM2 : (s.rankedSubs.drop (s.allowed - s.baseTotal)).Pairwise
          (fun a b =>
            decide (b.remainder
                = ((s.rankedSubs.take (s.allowed - s.baseTotal)).getLast hPne).remainder)
              = true →
            decide (a.remainder
                = ((s.rankedSubs.take (s.allowed - s.baseTotal)).getLast hPne).remainder)
              = true) := by
        refine List.Pairwise.imp_of_mem ?_ hQsorted
        intro a b ha hb hdesc hpb
        have hb' : b.remainder
            = ((s.rankedSubs.take (s.allowed - s.baseTotal)).getLast hPne).remainder :=
          of_decide_eq_true hpb
        refine decide_eq_true (le_antisymm ?_ (hb' ▸ hdesc))
        calc a.remainder
            ≤ ((s.rankedSubs.drop (s.allowed - s.baseTotal)).head hQne).remainder :=
              hQmax a ha
          _ = _ := hstrad
      have hfold2 : ∀ init : WalkState,
          List.foldl (walkStep s.allowed) init (s.rankedSubs.drop (s.allowed - s.baseTotal))
          = List.foldl (walkStep s.allowed) init
            (((s.rankedSubs.drop (s.allowed - s.baseTotal)).takeWhile (fun c =>
                decide (c.remainder
                  = ((s.rankedSubs.take (s.allowed - s.baseTotal)).getLast hPne).remainder)))
              ++ ((s.rankedSubs.drop (s.allowed - s.baseTotal)).dropWhile (fun c =>
                decide (c.remainder
                  = ((s.rankedSubs.take (s.allowed - s.baseTotal)).getLast hPne).remainder)))) := by
        intro init
        rw [List.takeWhile_append_dropWhile]
      have hallTW : ∀ c ∈ (s.rankedSubs.drop (s.allowed - s.baseTotal)).takeWhile
          (fun c => decide (c.remainder
            = ((s.rankedSubs.take (s.allowed - s.baseTotal)).getLast hPne).remainder)),
          c.remainder
            = ((s.rankedSubs.take (s.allowed - s.baseTotal)).getLast hPne).remainder := by
        intro c hc
        have h1 := List.mem_takeWhile_imp hc
        exact of_decide_eq_true h1
      rw [hfold2, List.foldl_append,
        walk_tail_run s.allowed
          ((s.rankedSubs.drop (s.allowed - s.baseTotal)).takeWhile (fun c =>
            decide (c.remainder
              = ((s.rankedSubs.take (s.allowed - s.baseTotal)).getLast hPne).remainder)))
          _
          ((s.rankedSubs.take (s.allowed - s.baseTotal)).getLast hPne).remainder
          hnotlt rfl hallTW]
      have hTWne : (s.rankedSubs.drop (s.allowed - s.baseTotal)).takeWhile (fun c =>
          decide (c.remainder
            = ((s.rankedSubs.take (s.allowed - s.baseTotal)).getLast hPne).remainder))
          ≠ [] := by
        obtain ⟨hd, tl, hQeq⟩ := List.exists_cons_of_ne_nil hQne
        have hhd : hd.remainder
            = ((s.rankedSubs.take (s.allowed - s.baseTotal)).getLast hPne).remainder := by
          have hh : (s.rankedSubs.drop (s.allowed - s.baseTotal)).head hQne = hd := by
            have h1 : (s.rankedSubs.drop (s.allowed - s.baseTotal)).head? = some hd := by
              rw [hQeq]
              rfl
            rw [hhead?] at h1
            exact Option.some_inj.mp h1
          rw [← hh]
          exact hstrad
        rw [hQeq, List.takeWhile_cons, if_pos (decide_eq_true hhd)]
        exact List.cons_ne_nil hd _
      have hfilP : ((s.rankedSubs.take (s.allowed - s.baseTotal)).reverse.takeWhile
            (fun c => decide (c.remainder
              = ((s.rankedSubs.take (s.allowed - s.baseTotal)).getLast hPne).remainder))).reverse
          = (s.rankedSubs.take (s.allowed - s.baseTotal)).filter
            (fun c => decide (c.remainder
              = ((s.rankedSubs.take (s.allowed - s.baseTotal)).getLast hPne).remainder)) := by
        rw [takeWhile_eq_filter_of_pairwise _ _ hM1, List.filter_reverse,
          List.reverse_reverse]
      have hfilQ : (s.rankedSubs.drop (s.allowed - s.baseTotal)).takeWhile
            (fun c => decide (c.remainder
              = ((s.rankedSubs.take (s.allowed - s.baseTotal)).getLast hPne).remainder))
          = (s.rankedSubs.drop (s.allowed - s.baseTotal)).filter
            (fun c => decide (c.remainder
              = ((s.rankedSubs.take (s.allowed - s.baseTotal)).getLast hPne).remainder)) :=
        takeWhile_eq_filter_of_pairwise _ _ hM2
      have hfilsplit : s.rankedSubs.filter
            (fun c => decide (c.remainder
              = ((s.rankedSubs.take (s.allowed - s.baseTotal)).getLast hPne).remainder))
          = (s.rankedSubs.take (s.allowed - s.baseTotal)).filter
              (fun c => decide (c.remainder
                = ((s.rankedSubs.take (s.allowed - s.baseTotal)).getLast hPne).remainder))
            ++ (s.rankedSubs.drop (s.allowed - s.baseTotal)).filter
              (fun c => decide (c.remainder
                = ((s.rankedSubs.take (s.allowed - s.baseTotal)).getLast hPne).remainder)) := by
        rw [← List.filter_append, List.take_append_drop]
      have hpredeq : s.rankedSubs.filter (fun c =>
            decide (((s.rankedSubs.take (s.allowed - s.baseTotal)).getLast?).map
                Subcaucus.remainder
              = some c.remainder))
          = s.rankedSubs.filter
            (fun c => decide (c.remainder
              = ((s.rankedSubs.take (s.allowed - s.baseTotal)).getLast hPne).remainder)) := by
        apply List.filter_congr
        intro a _
        rw [decide_eq_decide, hlast?, Option.map_some']
        constructor
        · intro h
          exact (Option.some_inj.mp h).symm
        · intro h
          rw [h]
      have hcond : ((s.rankedSubs.drop (s.allowed - s.baseTotal)).head?).map
            Subcaucus.remainder
          = ((s.rankedSubs.take (s.allowed - s.baseTotal)).getLast?).map
              Subcaucus.remainder := by
        rw [hlast?, hhead?, Option.map_some', Option.map_some', hstrad]
      have hcondfull : 0 < s.allowed - s.baseTotal ∧
          ((s.rankedSubs.drop (s.allowed - s.baseTotal)).head?).map Subcaucus.remainder
            = ((s.rankedSubs.take (s.allowed - s.baseTotal)).getLast?).map
                Subcaucus.remainder := ⟨by omega, hcond⟩
      rw [if_pos hcondfull, hpredeq, hfilsplit, List.map_append, ← hfilP, ← hfilQ]
      cases hS : (s.rankedSubs.drop (s.allowed - s.baseTotal)).dropWhile (fun c =>
          decide (c.remainder
            = ((s.rankedSubs.take (s.allowed - s.baseTotal)).getLast hPne).remainder)) with
      | nil =>
        rw [List.foldl_nil]
      | cons c S =>
        rw [List.foldl_cons]
        have hpc : (fun c => decide (c.remainder
            = ((s.rankedSubs.take (s.allowed - s.baseTotal)).getLast hPne).remainder)) c
            = false :=
          dropWhile_head_not _ _ c S hS
        have hcne : ¬ (((s.rankedSubs.take (s.allowed - s.baseTotal)).getLast hPne).remainder
            = c.remainder) := by
          intro h
          rw [decide_eq_false_iff_not] at hpc
          exact hpc h.symm
        have hja2 : ((s.rankedSubs.drop (s.allowed - s.baseTotal)).takeWhile
            (fun c => decide (c.remainder
              = ((s.rankedSubs.take (s.allowed - s.baseTotal)).getLast hPne).remainder))).isEmpty
            = false := by
          rw [List.isEmpty_eq_false]
          exact hTWne
        rw [walkStep_reset s.allowed _ c hnotlt (fun h => hcne h)
          (by rw [hja2, if_neg Bool.false_ne_true])]
        rw [walk_tail_stuck s.allowed S _ hnotlt rfl rfl
          (fun d hd => Snapshot.ranked_rem_nonneg s d
            ((List.drop_sublist _ _).subset
              ((List.dropWhile_sublist _).subset (by
                rw [hS]
                exact List.mem_cons_of_mem c hd))))]
    · -- no tie across the cutoff: the first unseated group resets the list
      obtain ⟨hd, tl, hQeq⟩ := List.exists_cons_of_ne_nil hQne
      have hhd : (s.rankedSubs.drop (s.allowed - s.baseTotal)).head hQne = hd := by
        have h1 : (s.rankedSubs.drop (s.allowed - s.baseTotal)).head? = some hd := by
          rw [hQeq]
          rfl
        rw [hhead?] at h1
        exact Option.some_inj.mp h1
      have hcne : ¬ (((s.rankedSubs.take (s.allowed - s.baseTotal)).getLast hPne).remainder
          = hd.remainder) := by
        intro h
        exact hstrad (by rw [hhd, ← h])
      have hfold3 : ∀ init : WalkState,
          List.foldl (walkStep s.allowed) init (s.rankedSubs.drop (s.allowed - s.baseTotal))
          = List.foldl (walkStep s.allowed) init (hd :: tl) := by
        intro init
        rw [hQeq]
      rw [hfold3, List.foldl_cons]
      have hstep2 : walkStep s.allowed
          ⟨(walkInit s.baseTotal).totalDelegates
            + (s.rankedSubs.take (s.allowed - s.baseTotal)).length,
           ((s.rankedSubs.take (s.allowed - s.baseTotal)).getLast hPne).remainder,
           ((s.rankedSubs.take (s.allowed - s.baseTotal)).reverse.takeWhile
             (fun c => decide (c.remainder
               = ((s.rankedSubs.take (s.allowed - s.baseTotal)).getLast hPne).remainder))).reverse.map
             Subcaucus.id,
           true,
           (walkInit s.baseTotal).done
             ++ (s.rankedSubs.take (s.allowed - s.baseTotal)).map
               Subcaucus.addRemainderDelegate⟩
          hd
          = ⟨(walkInit s.baseTotal).totalDelegates
              + (s.rankedSubs.take (s.allowed - s.baseTotal)).length,
             -1, [], false,
             ((walkInit s.baseTotal).done
               ++ (s.rankedSubs.take (s.allowed - s.baseTotal)).map
                 Subcaucus.addRemainderDelegate) ++ [hd]⟩ := by
        unfold walkStep
        rw [if_neg hnotlt, if_neg hcne, if_pos rfl]
      rw [hstep2, walk_tail_stuck s.allowed tl _ hnotlt rfl rfl
        (fun d hdm => Snapshot.ranked_rem_nonneg s d
          ((List.drop_sublist _ _).subset (hQeq ▸ List.mem_cons_of_mem hd hdm))),
        if_neg (fun h => by
          rw [hhead?, hlast?, Option.map_some', Option.map_some', hhd] at h
          exact hcne ((Option.some_inj.mp h.2).symm))]

/-- Every record in the walk's `done` list still has `reportTosses = false`. -/
lemma Snapshot.done_rT_false (s : Snapshot) :
    ∀ w ∈ s.walkResult.done, w.reportTosses = false := by
  intro w hw
  rw [Snapshot.processed_done_eq, walkAssign_take_drop] at hw
  rcases List.mem_append.mp hw with h | h
  · obtain ⟨e, he, rfl⟩ := List.mem_map.mp h
    rw [show e.addRemainderDelegate.reportTosses = e.reportTosses from rfl]
    exact Snapshot.ranked_rT_false s e ((List.take_sublist _ _).subset he)
  · exact Snapshot.ranked_rT_false s w ((List.drop_sublist _ _).subset h)

/-- A processed group's audit flag is set exactly when its id made the
reporting list. -/
lemma Snapshot.processed_rT_iff (s : Snapshot) (q : Subcaucus)
    (hq : q ∈ s.processedSubs) :
    q.reportTosses = true ↔ q.id ∈ s.walkResult.reportingTo := by
  unfold Snapshot.processedSubs at hq
  obtain ⟨w, hw, rfl⟩ := List.mem_map.mp hq
  unfold markReports
  split_ifs with hmem
  · exact ⟨fun _ => hmem, fun _ => rfl⟩
  · rw [Snapshot.done_rT_false s w hw]
    exact ⟨fun h => absurd h Bool.false_ne_true, fun h => absurd h hmem⟩

/-- Each processed group shares its id and remainder with a ranked group. -/
lemma Snapshot.processed_corresponds (s : Snapshot) (q : Subcaucus)
    (hq : q ∈ s.processedSubs) :
    ∃ e ∈ s.rankedSubs, e.id = q.id ∧ e.remainder = q.remainder := by
  have h1 : dproj q ∈ s.processedSubs.map dproj := List.mem_map_of_mem dproj hq
  rw [Snapshot.processed_map_dproj] at h1
  obtain ⟨e, he, hde⟩ := List.mem_map.mp h1
  refine ⟨e, he, ?_, ?_⟩
  · have h' := congrArg (fun t : Nat × String × Nat × Nat × ℚ => t.1) hde
    exact h'
  · have h' := congrArg (fun t : Nat × String × Nat × Nat × ℚ => t.2.2.2.2) hde
    exact h'

/-! ## Claim C6: the audit flag marks exactly the straddling tie -/

/-- C6: for a computation with `allowed ≠ 0`, viable participants and
distinct ids, a group's `reportTosses` ends up true if and only if the group
is viable, some leftover seats were handed out, the remainder-ranked groups
on the two sides of the seat cutoff (positions `allowed - baseTotal - 1` and
`allowed - baseTotal` of the ranked list, its last seated and first unseated
groups) are exactly tied, and the group's own remainder equals that tied
value — i.e. the group belongs to the equal-remainder run that straddles the
point where `totalDelegates` reaches `allowed`.  Ties that decide nothing
leave every flag false. -/
theorem reportTosses_iff_straddling_tie (s : Snapshot)
    (hA : s.allowed ≠ 0) (hV : s.vParticipants ≠ 0)
    (hnd : (s.subcaucuses.map Subcaucus.id).Nodup) :
    ∀ c ∈ s.redistributeDelegates.subcaucuses,
      (c.reportTosses = true ↔
        (s.vNumber ≤ c.count ∧ 0 < s.allowed - s.baseTotal ∧
         ((s.rankedSubs.drop (s.allowed - s.baseTotal)).head?).map Subcaucus.remainder
           = ((s.rankedSubs.take (s.allowed - s.baseTotal)).getLast?).map
               Subcaucus.remainder ∧
         ((s.rankedSubs.take (s.allowed - s.baseTotal)).getLast?).map
             Subcaucus.remainder
           = some c.remainder)) := by
  have hp : s.computedParticipants ≠ 0 := by
    have := s.vParticipants_le_participants
    omega
  intro c hc
  rw [Snapshot.redistribute_eq_full s hA hp hV] at hc
  dsimp only at hc
  unfold Snapshot.finalSubs at hc
  obtain ⟨c0, hc0, rfl⟩ := List.mem_map.mp hc
  by_cases hv : s.vNumber ≤ c0.count
  · rw [if_pos hv]
    obtain ⟨q, hq, hqmem, hqid, _, hqcount, _, hqrem⟩ :=
      Snapshot.finalSubs_viable_val s hnd c0 hc0 hv
    rw [hq, hqcount, Snapshot.processed_rT_iff s q hqmem,
      Snapshot.walk_reportingTo s hA hV]
    obtain ⟨e', he', hid', hrem'⟩ := Snapshot.processed_corresponds s q hqmem
    by_cases hstrad : 0 < s.allowed - s.baseTotal ∧
        ((s.rankedSubs.drop (s.allowed - s.baseTotal)).head?).map Subcaucus.remainder
          = ((s.rankedSubs.take (s.allowed - s.baseTotal)).getLast?).map
              Subcaucus.remainder
    · rw [if_pos hstrad]
      constructor
      · intro hmem
        obtain ⟨e, he, heid⟩ := List.mem_map.mp hmem
        have hef := List.mem_filter.mp he
        have hpe : ((s.rankedSubs.take (s.allowed - s.baseTotal)).getLast?).map
            Subcaucus.remainder = some e.remainder := of_decide_eq_true hef.2
        have hee : e = e' :=
          List.inj_on_of_nodup_map (Snapshot.ranked_ids_nodup s hnd) hef.1 he'
            (by rw [heid, hid'])
        rw [hee, hrem'] at hpe
        exact ⟨hv, hstrad.1, hstrad.2, hpe⟩
      · intro hR
        apply List.mem_map.mpr
        refine ⟨e', List.mem_filter.mpr ⟨he', decide_eq_true ?_⟩, hid'⟩
        rw [hrem']
        exact hR.2.2.2
    · rw [if_neg hstrad]
      constructor
      · intro h
        exact absurd h (List.not_mem_nil q.id)
      · intro hR
        exact absurd ⟨hR.2.1, hR.2.2.1⟩ hstrad
  · rw [if_neg hv]
    obtain ⟨_, _, _, hrT, _⟩ := Snapshot.mem_clearedSubs s hc0
    rw [hrT]
    constructor
    · intro h
      exact absurd h Bool.false_ne_true
    · intro h
      exact absurd h.1 hv

/-- Witness for C6: `allowed = 3`, counts `5, 5, 2`, seed 2 — the two
count-5 groups are tied at remainder 1/2 right across the single leftover
seat, so the tie decided a seat and both flags are set. -/
theorem reportTosses_iff_straddling_tie_witness :
    (⟨1, "", 5, 1, 1/2, 1, true, [(2, true)]⟩ : Subcaucus).reportTosses = true := by
  have h := reportTosses_iff_straddling_tie
    (sampleSnap 3 2 [sampleSub 1 5, sampleSub 2 5, sampleSub 3 2])
    (by decide) (by with_unfolding_all decide) (by decide)
    (⟨1, "", 5, 1, 1/2, 1, true, [(2, true)]⟩ : Subcaucus)
    (by with_unfolding_all decide)
  exact h.mpr (by with_unfolding_all decide)

/-! ## Claim C3: reset and early exit (corrected) -/

/-- Counterexample to C3 as stated: a snapshot that has gone through a full
computation (`allowed = 1`, one subcaucus of count 10, so its
`baseDelegates = 1` and the aggregate `totalDelegates = 1`) and whose
`allowed` is then set back to 0 (as `fromJSON` can do).  Invoking
`redistributeDelegates` exits before the reset, so the group still carries
its nonzero `baseDelegates` and the aggregates stay nonzero — contradicting
"after an early exit no group carries nonzero delegate fields" and "all
aggregates at zero". -/
theorem allowedZero_keeps_stale_delegates :
    ({ (sampleSnap 1 5 [sampleSub 1 10]).redistributeDelegates with allowed := 0
       }.redistributeDelegates.subcaucuses.map Subcaucus.baseDelegates) = [1] ∧
    ({ (sampleSnap 1 5 [sampleSub 1 10]).redistributeDelegates with allowed := 0
       }.redistributeDelegates.totalDelegates) = 1 ∧
    ({ (sampleSnap 1 5 [sampleSub 1 10]).redistributeDelegates with allowed := 0
       }.allowed) = 0 := by
  refine ⟨?_, ?_, ?_⟩ <;> with_unfolding_all decide

/-- C3 as amended: when `allowed = 0` the computation returns immediately and
nothing (in particular no stale per-group delegate field) is reset; when
`allowed ≠ 0` every group's derived fields are reset first, and the
`participants = 0` and `viableParticipants = 0` early exits leave every
group's delegate fields zeroed while the aggregates not yet recomputed
retain their prior values. -/
theorem reset_and_early_exit (s : Snapshot) :
    (s.allowed = 0 → s.redistributeDelegates = s) ∧
    (s.allowed ≠ 0 → s.computedParticipants = 0 →
      s.redistributeDelegates.participants = 0 ∧
      s.redistributeDelegates.totalDelegates = s.totalDelegates ∧
      s.redistributeDelegates.viabilityNumber = s.viabilityNumber ∧
      s.redistributeDelegates.delegateDivisor = s.delegateDivisor ∧
      ∀ c ∈ s.redistributeDelegates.subcaucuses,
        c.baseDelegates = 0 ∧ c.remainder = 0 ∧ c.remainderDelegates = 0 ∧
          c.reportTosses = false ∧ c.tossLog = []) ∧
    (s.allowed ≠ 0 → s.computedParticipants ≠ 0 → s.vParticipants = 0 →
      s.redistributeDelegates.participants = s.computedParticipants ∧
      s.redistributeDelegates.viabilityNumber = s.vNumber ∧
      s.redistributeDelegates.viableParticipants = 0 ∧
      s.redistributeDelegates.totalDelegates = s.totalDelegates ∧
      s.redistributeDelegates.delegateDivisor = s.delegateDivisor ∧
      ∀ c ∈ s.redistributeDelegates.subcaucuses,
        c.baseDelegates = 0 ∧ c.remainder = 0 ∧ c.remainderDelegates = 0 ∧
          c.reportTosses = false ∧ c.tossLog = []) := by
  refine ⟨fun h0 => ?_, fun h0 hp => ?_, fun h0 hp hv => ?_⟩
  · unfold Snapshot.redistributeDelegates
    rw [if_pos h0]
  · unfold Snapshot.redistributeDelegates
    rw [if_neg h0, if_pos hp]
    refine ⟨rfl, rfl, rfl, rfl, ?_⟩
    rintro c hc
    simp only [Snapshot.clearedSubs, List.mem_map] at hc
    obtain ⟨c0, _, rfl⟩ := hc
    simp
  · unfold Snapshot.redistributeDelegates
    rw [if_neg h0, if_neg hp, if_pos hv]
    refine ⟨rfl, rfl, rfl, rfl, rfl, ?_⟩
    rintro c hc
    simp only [Snapshot.clearedSubs, List.mem_map] at hc
    obtain ⟨c0, _, rfl⟩ := hc
    simp

/-- Witness for C3 (amended) at concrete inputs: the `allowed = 0` branch on
a stale snapshot, and the `participants = 0` branch. -/
theorem reset_and_early_exit_witness :
    (sampleSnap 0 5 [sampleSub 1 4]).redistributeDelegates
        = sampleSnap 0 5 [sampleSub 1 4] ∧
    (sampleSnap 3 5 [sampleSub 1 0]).redistributeDelegates.participants = 0 := by
  have h1 := (reset_and_early_exit (sampleSnap 0 5 [sampleSub 1 4])).1 (by decide)
  have h2 := ((reset_and_early_exit (sampleSnap 3 5 [sampleSub 1 0])).2.1
    (by decide) (by with_unfolding_all decide)).1
  exact ⟨h1, h2⟩

end SubCalc
